import Mathlib

/-!
Verification of the schedule1-mix-calc core: the state-transition engine
(`Mixer`), the single-target optimizer (`Optimizer`) and the multi-target
optimizer (`MultiProductOptimizer`), shallowly embedded over exact rational
arithmetic.  JavaScript `Set`s are modelled as insertion-ordered
duplicate-free lists, `Map`s as insertion-ordered association lists, thrown
exceptions as `Option`/`Except`, and JS number truthiness (`x && ...`)
explicitly.
-/

namespace S1

/-- JS `Math.round`: rounds half toward positive infinity. -/
def jsRound (q : ℚ) : ℚ := ((q + 1/2).floor : ℤ)

/-- JS `Set.prototype.add`: append if absent, keep position if present. -/
def setAdd (s : List String) (e : String) : List String :=
  if e ∈ s then s else s ++ [e]

/-- JS `Set.prototype.delete`: remove the element (sets hold it at most once). -/
def setDelete : List String → String → List String
  | [], _ => []
  | x :: xs, e => if x = e then setDelete xs e else x :: setDelete xs e

/-- `new Set(array)`: dedup preserving first-occurrence order. -/
def listToSet (xs : List String) : List String := xs.foldl setAdd []

/-- JS `Map.prototype.get`. -/
def mapGet? {κ α : Type} [DecidableEq κ] : List (κ × α) → κ → Option α
  | [], _ => none
  | (k', v) :: rest, k => if k' = k then some v else mapGet? rest k

/-- JS `Map.prototype.set`: update in place if the key exists, else append. -/
def mapSet {κ α : Type} [DecidableEq κ] : List (κ × α) → κ → α → List (κ × α)
  | [], k, v => [(k, v)]
  | (k', v') :: rest, k, v =>
    if k' = k then (k, v) :: rest else (k', v') :: mapSet rest k v

/-- Lexicographic UTF code-point comparison, as JS default string sort uses. -/
def charListLe : List Char → List Char → Bool
  | [], _ => true
  | _ :: _, [] => false
  | a :: as, b :: bs => if a = b then charListLe as bs else decide (a < b)

/-- Stable insertion into a sorted list: `le x y = true` places `x` before `y`. -/
def insertSorted {α : Type} (le : α → α → Bool) (x : α) : List α → List α
  | [] => [x]
  | y :: ys => if le x y then x :: y :: ys else y :: insertSorted le x ys

/-- Stable insertion sort, modelling JS `Array.prototype.sort` (stable). -/
def sortBy {α : Type} (le : α → α → Bool) : List α → List α
  | [] => []
  | x :: xs => insertSorted le x (sortBy le xs)

/-- JS `array.sort()` on strings (default lexicographic comparator). -/
def sortStrings (xs : List String) : List String :=
  sortBy (fun a b => charListLe a.data b.data) xs

/-- JS `array.join(sep)` for a one-character separator, on raw char lists. -/
def joinChars (sep : Char) : List (List Char) → List Char
  | [] => []
  | [x] => x
  | x :: y :: rest => x ++ sep :: joinChars sep (y :: rest)

/-- JS number truthiness of an optional numeric option (`undefined`/`0` falsy). -/
def qTruthy : Option ℚ → Bool
  | none => false
  | some q => q != 0

/-! ## Catalog data model (`src/types/index.ts`, `src/data/*.ts`) -/

structure Effect where
  name : String
  multiplier : ℚ
  addiction : ℚ
deriving DecidableEq

structure TransformationRule where
  condition : String
  replacement : String
deriving DecidableEq

structure Ingredient where
  name : String
  cost : ℚ
  defaultEffect : String
  transformationRules : List TransformationRule
deriving DecidableEq

structure Substance where
  name : String
  basePrice : ℚ
  initialEffects : List String
  category : String
deriving DecidableEq

/-- The three lookup tables, in their source-literal insertion order
(`Object.keys`/`Object.values` enumerate in that order). -/
structure Catalog where
  effects : List Effect
  ingredients : List Ingredient
  substances : List Substance

def getEffect (c : Catalog) (n : String) : Option Effect :=
  c.effects.find? (fun e => e.name == n)

def getIngredient (c : Catalog) (n : String) : Option Ingredient :=
  c.ingredients.find? (fun i => i.name == n)

def getSubstance (c : Catalog) (n : String) : Option Substance :=
  c.substances.find? (fun s => s.name == n)

def getAllIngredients (c : Catalog) : List String :=
  c.ingredients.map Ingredient.name

/-- `getHighestValueEffects`: all effects sorted by descending multiplier
(stable), truncated to `count`. -/
def getHighestValueEffects (c : Catalog) (count : Nat) : List Effect :=
  (sortBy (fun a b => decide (b.multiplier ≤ a.multiplier)) c.effects).take count

/-! ## The concrete catalog (`data/effects.ts`, `data/ingredients.ts`,
  `data/substances.ts`) -/

def EFFECTS : List Effect := [
  ⟨"Anti-Gravity", 0.54, 0.611⟩,
  ⟨"Athletic", 0.32, 0.607⟩,
  ⟨"Balding", 0.3, 0⟩,
  ⟨"Bright-Eyed", 0.4, 0.2⟩,
  ⟨"Calming", 0.1, 0⟩,
  ⟨"Calorie-Dense", 0.28, 0.1⟩,
  ⟨"Cyclopean", 0.56, 0.1⟩,
  ⟨"Disorienting", 0.0, 0⟩,
  ⟨"Electrifying", 0.5, 0.235⟩,
  ⟨"Energizing", 0.22, 0.34⟩,
  ⟨"Euphoric", 0.18, 0.235⟩,
  ⟨"Explosive", 0.0, 0⟩,
  ⟨"Focused", 0.16, 0.104⟩,
  ⟨"Foggy", 0.36, 0.1⟩,
  ⟨"Gingeritis", 0.2, 0⟩,
  ⟨"Glowing", 0.48, 0.472⟩,
  ⟨"Jennerising", 0.42, 0.343⟩,
  ⟨"Laxative", 0.0, 0.1⟩,
  ⟨"Long Faced", 0.52, 0.607⟩,
  ⟨"Munchies", 0.12, 0.096⟩,
  ⟨"Paranoia", 0.0, 0⟩,
  ⟨"Refreshing", 0.14, 0.104⟩,
  ⟨"Schizophrenia", 0.0, 0⟩,
  ⟨"Sedating", 0.26, 0⟩,
  ⟨"Seizure-Inducing", 0.0, 0⟩,
  ⟨"Shrinking", 0.6, 0.336⟩,
  ⟨"Slippery", 0.34, 0.309⟩,
  ⟨"Smelly", 0.0, 0⟩,
  ⟨"Sneaky", 0.24, 0.327⟩,
  ⟨"Spicy", 0.38, 0.665⟩,
  ⟨"Thought-Provoking", 0.44, 0.37⟩,
  ⟨"Toxic", 0.0, 0⟩,
  ⟨"Tropic Thunder", 0.46, 0.803⟩,
  ⟨"Zombifying", 0.58, 0.598⟩]

def INGREDIENTS : List Ingredient := [
  ⟨"Cuke", 2, "Energizing", [
    ⟨"Euphoric", "Laxative"⟩,
    ⟨"Foggy", "Cyclopean"⟩,
    ⟨"Gingeritis", "Thought-Provoking"⟩,
    ⟨"Munchies", "Athletic"⟩,
    ⟨"Slippery", "Munchies"⟩,
    ⟨"Sneaky", "Paranoia"⟩,
    ⟨"Toxic", "Euphoric"⟩]⟩,
  ⟨"Flu Medicine", 5, "Sedating", [
    ⟨"Athletic", "Munchies"⟩,
    ⟨"Calming", "Bright-Eyed"⟩,
    ⟨"Cyclopean", "Foggy"⟩,
    ⟨"Electrifying", "Refreshing"⟩,
    ⟨"Euphoric", "Toxic"⟩,
    ⟨"Focused", "Calming"⟩,
    ⟨"Laxative", "Euphoric"⟩,
    ⟨"Munchies", "Slippery"⟩,
    ⟨"Shrinking", "Paranoia"⟩,
    ⟨"Thought-Provoking", "Gingeritis"⟩]⟩,
  ⟨"Gasoline", 5, "Toxic", [
    ⟨"Disorienting", "Glowing"⟩,
    ⟨"Electrifying", "Disorienting"⟩,
    ⟨"Energizing", "Euphoric"⟩,
    ⟨"Euphoric", "Spicy"⟩,
    ⟨"Gingeritis", "Smelly"⟩,
    ⟨"Jennerising", "Sneaky"⟩,
    ⟨"Laxative", "Foggy"⟩,
    ⟨"Munchies", "Sedating"⟩,
    ⟨"Paranoia", "Calming"⟩,
    ⟨"Shrinking", "Focused"⟩,
    ⟨"Sneaky", "Tropic Thunder"⟩]⟩,
  ⟨"Donut", 3, "Calorie-Dense", [
    ⟨"Anti-Gravity", "Slippery"⟩,
    ⟨"Balding", "Sneaky"⟩,
    ⟨"Calorie-Dense", "Explosive"⟩,
    ⟨"Focused", "Euphoric"⟩,
    ⟨"Jennerising", "Gingeritis"⟩,
    ⟨"Munchies", "Calming"⟩,
    ⟨"Shrinking", "Energizing"⟩]⟩,
  ⟨"Energy Drink", 6, "Athletic", [
    ⟨"Disorienting", "Electrifying"⟩,
    ⟨"Euphoric", "Energizing"⟩,
    ⟨"Focused", "Shrinking"⟩,
    ⟨"Foggy", "Laxative"⟩,
    ⟨"Glowing", "Disorienting"⟩,
    ⟨"Schizophrenia", "Balding"⟩,
    ⟨"Sedating", "Munchies"⟩,
    ⟨"Spicy", "Euphoric"⟩,
    ⟨"Tropic Thunder", "Sneaky"⟩]⟩,
  ⟨"Mouth Wash", 4, "Balding", [
    ⟨"Calming", "Anti-Gravity"⟩,
    ⟨"Calorie-Dense", "Sneaky"⟩,
    ⟨"Explosive", "Sedating"⟩,
    ⟨"Focused", "Jennerising"⟩]⟩,
  ⟨"Motor Oil", 6, "Slippery", [
    ⟨"Energizing", "Munchies"⟩,
    ⟨"Euphoric", "Sedating"⟩,
    ⟨"Foggy", "Toxic"⟩,
    ⟨"Munchies", "Schizophrenia"⟩,
    ⟨"Paranoia", "Anti-Gravity"⟩]⟩,
  ⟨"Banana", 2, "Gingeritis", [
    ⟨"Calming", "Sneaky"⟩,
    ⟨"Cyclopean", "Energizing"⟩,
    ⟨"Disorienting", "Focused"⟩,
    ⟨"Energizing", "Thought-Provoking"⟩,
    ⟨"Focused", "Seizure-Inducing"⟩,
    ⟨"Long Faced", "Refreshing"⟩,
    ⟨"Paranoia", "Jennerising"⟩,
    ⟨"Smelly", "Anti-Gravity"⟩,
    ⟨"Toxic", "Smelly"⟩]⟩,
  ⟨"Chili", 7, "Spicy", [
    ⟨"Anti-Gravity", "Tropic Thunder"⟩,
    ⟨"Athletic", "Euphoric"⟩,
    ⟨"Laxative", "Long Faced"⟩,
    ⟨"Munchies", "Toxic"⟩,
    ⟨"Shrinking", "Refreshing"⟩,
    ⟨"Sneaky", "Bright-Eyed"⟩]⟩,
  ⟨"Iodine", 8, "Jennerising", [
    ⟨"Calming", "Balding"⟩,
    ⟨"Calorie-Dense", "Gingeritis"⟩,
    ⟨"Euphoric", "Seizure-Inducing"⟩,
    ⟨"Foggy", "Paranoia"⟩,
    ⟨"Refreshing", "Thought-Provoking"⟩,
    ⟨"Toxic", "Sneaky"⟩]⟩,
  ⟨"Paracetamol", 3, "Sneaky", [
    ⟨"Calming", "Slippery"⟩,
    ⟨"Electrifying", "Athletic"⟩,
    ⟨"Energizing", "Paranoia"⟩,
    ⟨"Focused", "Gingeritis"⟩,
    ⟨"Foggy", "Calming"⟩,
    ⟨"Glowing", "Toxic"⟩,
    ⟨"Munchies", "Anti-Gravity"⟩,
    ⟨"Paranoia", "Balding"⟩,
    ⟨"Spicy", "Bright-Eyed"⟩,
    ⟨"Toxic", "Tropic Thunder"⟩]⟩,
  ⟨"Viagra", 4, "Tropic Thunder", [
    ⟨"Athletic", "Sneaky"⟩,
    ⟨"Disorienting", "Toxic"⟩,
    ⟨"Euphoric", "Bright-Eyed"⟩,
    ⟨"Laxative", "Calming"⟩,
    ⟨"Shrinking", "Gingeritis"⟩]⟩,
  ⟨"Horse Semen", 9, "Long Faced", [
    ⟨"Anti-Gravity", "Calming"⟩,
    ⟨"Gingeritis", "Refreshing"⟩,
    ⟨"Seizure-Inducing", "Energizing"⟩,
    ⟨"Thought-Provoking", "Electrifying"⟩]⟩,
  ⟨"Mega Bean", 7, "Foggy", [
    ⟨"Athletic", "Laxative"⟩,
    ⟨"Calming", "Glowing"⟩,
    ⟨"Energizing", "Cyclopean"⟩,
    ⟨"Focused", "Disorienting"⟩,
    ⟨"Jennerising", "Paranoia"⟩,
    ⟨"Seizure-Inducing", "Focused"⟩,
    ⟨"Shrinking", "Electrifying"⟩,
    ⟨"Slippery", "Toxic"⟩,
    ⟨"Sneaky", "Calming"⟩,
    ⟨"Thought-Provoking", "Energizing"⟩]⟩,
  ⟨"Addy", 9, "Thought-Provoking", [
    ⟨"Explosive", "Euphoric"⟩,
    ⟨"Foggy", "Energizing"⟩,
    ⟨"Glowing", "Refreshing"⟩,
    ⟨"Long Faced", "Electrifying"⟩,
    ⟨"Sedating", "Gingeritis"⟩]⟩,
  ⟨"Battery", 8, "Bright-Eyed", [
    ⟨"Cyclopean", "Glowing"⟩,
    ⟨"Electrifying", "Euphoric"⟩,
    ⟨"Euphoric", "Zombifying"⟩,
    ⟨"Laxative", "Calorie-Dense"⟩,
    ⟨"Munchies", "Tropic Thunder"⟩,
    ⟨"Shrinking", "Munchies"⟩]⟩]

def SUBSTANCES : List Substance := [
  ⟨"OG Kush", 35, ["Calming"], "weed"⟩,
  ⟨"Sour Diesel", 35, ["Refreshing"], "weed"⟩,
  ⟨"Green Crack", 35, ["Focused"], "weed"⟩,
  ⟨"Grandaddy Purple", 35, ["Sedating"], "weed"⟩,
  ⟨"Meth", 70, [], "stimulant"⟩,
  ⟨"Cocaine", 150, [], "stimulant"⟩]

/-- The repository's catalog. -/
def schedule1 : Catalog := ⟨EFFECTS, INGREDIENTS, SUBSTANCES⟩

/-! ## State transition engine (`src/engine/mixer.ts`) -/

structure MixState where
  baseSubstance : String
  effects : List String
  ingredientsUsed : List String
  totalCost : ℚ
  currentValue : ℚ
  profit : ℚ
  totalAddiction : ℚ
deriving DecidableEq

/-- `Mixer.MAX_EFFECTS`. -/
def MAX_EFFECTS : Nat := 8

/-- `calculateValueFromEffects`: base price times one plus the sum of the
multipliers of the effects present (absent catalog entries contribute 0). -/
def calculateValueFromEffects (c : Catalog) (basePrice : ℚ)
    (effects : List String) : ℚ :=
  basePrice *
    (1 + effects.foldl
      (fun acc e => acc + (Option.map Effect.multiplier (getEffect c e)).getD 0) 0)

/-- `calculateTotalAddiction`: summed addiction of effects present, times 100,
JS-rounded, capped at 100.  (The JS guard `effect && effect.addiction` skips
falsy 0 contributions, which does not change the sum.) -/
def calculateTotalAddiction (c : Catalog) (effects : List String) : ℚ :=
  min 100 (jsRound
    ((effects.foldl
      (fun acc e => acc + (Option.map Effect.addiction (getEffect c e)).getD 0) 0) * 100))

/-- `Mixer.createInitialState`; `none` models the thrown not-found error. -/
def createInitialState (c : Catalog) (substanceName : String) :
    Option MixState := do
  let substance ← getSubstance c substanceName
  let effects := listToSet substance.initialEffects
  let currentValue := calculateValueFromEffects c substance.basePrice effects
  let totalAddiction := calculateTotalAddiction c effects
  some ⟨substanceName, effects, [], 0, currentValue, currentValue, totalAddiction⟩

/-- The transformation-rule pass of `Mixer.applyIngredient`: rules are folded
in list order over the working set as it mutates. -/
def applyRules (rules : List TransformationRule) (effects : List String) :
    List String :=
  rules.foldl
    (fun s r =>
      if r.condition ∈ s then setAdd (setDelete s r.condition) r.replacement
      else s)
    effects

/-- The default-effect step of `Mixer.applyIngredient`: insert iff the working
set is below the limit and does not already hold it. -/
def addDefaultEffect (defaultEffect : String) (effects : List String) :
    List String :=
  if effects.length < MAX_EFFECTS ∧ defaultEffect ∉ effects then
    effects ++ [defaultEffect]
  else effects

/-- `Mixer.applyIngredient`; `none` models the two thrown not-found errors
(unknown ingredient, and unknown base substance inside
`calculateCurrentValue`). -/
def applyIngredient (c : Catalog) (currentState : MixState)
    (ingredientName : String) : Option MixState := do
  let ingredient ← getIngredient c ingredientName
  let newEffects :=
    addDefaultEffect ingredient.defaultEffect
      (applyRules ingredient.transformationRules currentState.effects)
  let newTotalCost := currentState.totalCost + ingredient.cost
  let newTotalAddiction := calculateTotalAddiction c newEffects
  let substance ← getSubstance c currentState.baseSubstance
  let newCurrentValue := calculateValueFromEffects c substance.basePrice newEffects
  some ⟨currentState.baseSubstance, newEffects,
    currentState.ingredientsUsed ++ [ingredientName], newTotalCost,
    newCurrentValue, newCurrentValue - newTotalCost, newTotalAddiction⟩

/-- `Mixer.applySequence`: fold `applyIngredient` from the initial state. -/
def applySequence (c : Catalog) (substanceName : String)
    (ingredients : List String) : Option MixState :=
  ingredients.foldl (fun acc n => acc.bind (fun st => applyIngredient c st n))
    (createInitialState c substanceName)

/-- `Mixer.calculateProfit`. -/
def calculateProfit (state : MixState) : ℚ := state.currentValue - state.totalCost

/-! ## Heap-level model of `Mixer.applyIngredient`

JS `Set` and array objects are mutable heap references.  To state the frame
property (the input state's structures are not mutated and not shared with
the output) we give a second rendering of `applyIngredient` over an explicit
store: a `MixState` holds addresses for its `effects` set and
`ingredientsUsed` array, and `new Set(...)`/`[...spread]` allocate fresh
addresses.  All mutations (`delete`/`add` inside the rule pass, and the
default-effect `add`) target only the freshly allocated set. -/

structure HMixState where
  baseSubstance : String
  effects : Nat
  ingredientsUsed : Nat
  totalCost : ℚ
  currentValue : ℚ
  profit : ℚ
  totalAddiction : ℚ

structure Heap where
  store : Nat → List String
  next : Nat

/-- Read a heap-resident `MixState` back as a value-level one. -/
def readState (h : Heap) (st : HMixState) : MixState :=
  ⟨st.baseSubstance, h.store st.effects, h.store st.ingredientsUsed,
    st.totalCost, st.currentValue, st.profit, st.totalAddiction⟩

/-- `Mixer.applyIngredient` over the explicit store.  The net contents of the
fresh set after the in-place rule pass and default-effect insertion are
`addDefaultEffect _ (applyRules _ _)`, written to the fresh address. -/
def applyIngredientH (c : Catalog) (h : Heap) (st : HMixState)
    (ingredientName : String) : Option (HMixState × Heap) := do
  let ingredient ← getIngredient c ingredientName
  let a := h.next
  let newEffects :=
    addDefaultEffect ingredient.defaultEffect
      (applyRules ingredient.transformationRules (h.store st.effects))
  let newTotalCost := st.totalCost + ingredient.cost
  let newTotalAddiction := calculateTotalAddiction c newEffects
  let substance ← getSubstance c st.baseSubstance
  let newCurrentValue := calculateValueFromEffects c substance.basePrice newEffects
  let b := h.next + 1
  let newSequence := h.store st.ingredientsUsed ++ [ingredientName]
  some (⟨st.baseSubstance, a, b, newTotalCost, newCurrentValue,
      newCurrentValue - newTotalCost, newTotalAddiction⟩,
    ⟨fun n => if n = b then newSequence else if n = a then newEffects else h.store n,
      h.next + 2⟩)

/-! ## Single-target optimizer (`src/optimization/optimizer.ts`) -/

structure OptimizationOptions where
  baseSubstance : String
  maxSteps : Nat
  availableIngredients : Option (List String) := none
  targetEffects : Option (List String) := none
  budgetLimit : Option ℚ := none
  minAddictionLevel : Option ℚ := none

structure OptimizationResult where
  mixState : MixState
  sequence : List String
  finalEffects : List String
  totalCost : ℚ
  sellPrice : ℚ
  profit : ℚ
  profitMargin : ℚ
  totalAddiction : ℚ
deriving DecidableEq

structure CacheEntry where
  result : OptimizationResult
  stepsUsed : Nat
deriving DecidableEq

/-- The optimizer's per-call mutable fields (`cache`, `globalBest`), threaded
explicitly; both are reset at the start of every `findOptimalMix` call. -/
structure SearchCtx where
  cache : List (List Char × CacheEntry)
  globalBest : Option OptimizationResult
deriving DecidableEq

/-- `Optimizer.getStateKey`: sorted effect names joined with `|`
(represented by the key string's character list). -/
def getStateKey (effects : List String) : List Char :=
  joinChars '|' ((sortStrings effects).map String.data)

/-- `Optimizer.getIngredientCost` (`ingredient?.cost ?? 0`). -/
def getIngredientCost (c : Catalog) (ingredientName : String) : ℚ :=
  (Option.map Ingredient.cost (getIngredient c ingredientName)).getD 0

/-- `Optimizer.getBasePrice` (`substance?.basePrice ?? 35`). -/
def getBasePrice (c : Catalog) (substanceName : String) : ℚ :=
  (Option.map Substance.basePrice (getSubstance c substanceName)).getD 35

/-- `Optimizer.getCurrentMultiplier`. -/
def getCurrentMultiplier (c : Catalog) (state : MixState) : ℚ :=
  state.effects.foldl
    (fun acc e => acc + (Option.map Effect.multiplier (getEffect c e)).getD 0) 0

/-- `Optimizer.estimateMaxProfit`. -/
def estimateMaxProfit (c : Catalog) (state : MixState) (stepsRemaining : Nat)
    (availableIngredients : List String) : ℚ :=
  if stepsRemaining = 0 then calculateProfit state
  else
    let highestEffects := getHighestValueEffects c stepsRemaining
    let optimisticMultiplier := highestEffects.foldl
      (fun acc e => if e.name ∈ state.effects then acc else acc + e.multiplier) 0
    let cheapestCosts :=
      (sortBy (fun a b => decide (a ≤ b))
        (availableIngredients.map (getIngredientCost c))).take stepsRemaining
    let minAdditionalCost := cheapestCosts.foldl (· + ·) 0
    let basePrice := getBasePrice c state.baseSubstance
    let currentMultiplier := getCurrentMultiplier c state
    basePrice * (1 + currentMultiplier + optimisticMultiplier)
      - (state.totalCost + minAdditionalCost)

/-- `Optimizer.createResult`. -/
def createResult (state : MixState) (sequence : List String) :
    OptimizationResult :=
  let profit := calculateProfit state
  let profitMargin :=
    if state.currentValue > 0 then profit / state.currentValue * 100 else 0
  ⟨state, sequence, state.effects, state.totalCost, state.currentValue,
    profit, profitMargin, state.totalAddiction⟩

/-- `Optimizer.updateGlobalBest`. -/
def updateGlobalBest (ctx : SearchCtx) (result : OptimizationResult) :
    SearchCtx :=
  match ctx.globalBest with
  | none => { ctx with globalBest := some result }
  | some gb =>
    if result.profit > gb.profit then { ctx with globalBest := some result }
    else ctx

/-- The per-ingredient best-candidate update of `Optimizer.search`
(`result && (!bestResult || result.profit > bestResult.profit)`). -/
def pickBest (best : Option OptimizationResult)
    (result : Option OptimizationResult) : Option OptimizationResult :=
  match result, best with
  | some r, some b => if r.profit > b.profit then some r else some b
  | some r, none => some r
  | none, b => b

/-- The cache probe and branch-and-bound pruning test that open
`Optimizer.search`; the rest of the body is the continuation `core`,
which receives the computed state key. -/
def cacheAndPrune (c : Catalog) (availableIngredients : List String)
    (stepsRemaining : Nat) (currentState : MixState)
    (currentSequence : List String) (ctx : SearchCtx)
    (core : List Char → Option OptimizationResult × SearchCtx) :
    Option OptimizationResult × SearchCtx :=
  let stateKey := getStateKey currentState.effects
  let cacheHit := match mapGet? ctx.cache stateKey with
    | some cached =>
      if cached.stepsUsed ≤ currentSequence.length then some cached.result
      else none
    | none => none
  match cacheHit with
  | some result => (some result, ctx)
  | none =>
    let maxPossibleProfit :=
      estimateMaxProfit c currentState stepsRemaining availableIngredients
    match ctx.globalBest with
    | some gb =>
      if maxPossibleProfit ≤ gb.profit then (none, ctx) else core stateKey
    | none => core stateKey

/-- The `for (const ingredient of availableIngredients)` loop of
`Optimizer.search`: skip over-budget ingredients (budget truthiness as in
JS), skip ingredients whose application throws, recurse via `searchFn`
(the search at one fewer remaining step), and keep the strictly more
profitable result. -/
def searchLoop (c : Catalog) (budgetLimit : Option ℚ)
    (searchFn : MixState → List String → SearchCtx →
      Option OptimizationResult × SearchCtx)
    (currentState : MixState) (currentSequence : List String) :
    List String → Option OptimizationResult → SearchCtx →
      Option OptimizationResult × SearchCtx
  | [], bestResult, ctx => (bestResult, ctx)
  | ingredient :: rest, bestResult, ctx =>
    if qTruthy budgetLimit ∧
        (budgetLimit.getD 0) <
          currentState.totalCost + getIngredientCost c ingredient then
      searchLoop c budgetLimit searchFn currentState currentSequence rest
        bestResult ctx
    else
      match applyIngredient c currentState ingredient with
      | none =>
        searchLoop c budgetLimit searchFn currentState currentSequence rest
          bestResult ctx
      | some newState =>
        let r := searchFn newState (currentSequence ++ [ingredient]) ctx
        searchLoop c budgetLimit searchFn currentState currentSequence rest
          (pickBest bestResult r.1) r.2

/-- `Optimizer.search`: memoized depth-limited branch-and-bound search,
by recursion on `stepsRemaining`.  At zero steps the addiction gate and
result materialization; otherwise the ingredient loop followed by caching
of the branch winner. -/
def search (c : Catalog) (budgetLimit minAddictionLevel : Option ℚ)
    (availableIngredients : List String) :
    Nat → MixState → List String → SearchCtx →
      Option OptimizationResult × SearchCtx
  | 0, currentState, currentSequence, ctx =>
    cacheAndPrune c availableIngredients 0 currentState currentSequence ctx
      (fun stateKey =>
        if qTruthy minAddictionLevel ∧
            currentState.totalAddiction < (minAddictionLevel.getD 0) then
          (none, ctx)
        else
          let result := createResult currentState currentSequence
          let ctx1 := updateGlobalBest ctx result
          let ctx2 := { ctx1 with
            cache := mapSet ctx1.cache stateKey
              ⟨result, currentSequence.length⟩ }
          (some result, ctx2))
  | stepsRemaining + 1, currentState, currentSequence, ctx =>
    cacheAndPrune c availableIngredients (stepsRemaining + 1) currentState
      currentSequence ctx
      (fun stateKey =>
        let r :=
          searchLoop c budgetLimit
            (search c budgetLimit minAddictionLevel availableIngredients
              stepsRemaining)
            currentState currentSequence availableIngredients none ctx
        match r.1 with
        | some best =>
          let ctx2 : SearchCtx := { r.2 with
            cache := mapSet r.2.cache stateKey ⟨best, currentSequence.length⟩ }
          (some best, updateGlobalBest ctx2 best)
        | none => (none, r.2))

/-- `Optimizer.findOptimalMix`.  The cache and global best start empty (the
source clears them at call entry); the error case models the not-found throw
escaping from `createInitialState`. -/
def findOptimalMix (c : Catalog) (options : OptimizationOptions) :
    Except String OptimizationResult :=
  let availableIngredients :=
    options.availableIngredients.getD (getAllIngredients c)
  match createInitialState c options.baseSubstance with
  | none => .error ("Substance not found: " ++ options.baseSubstance)
  | some initialState =>
    if options.maxSteps = 0 then .ok (createResult initialState [])
    else
      .ok (((search c options.budgetLimit options.minAddictionLevel
          availableIngredients options.maxSteps initialState []
          ⟨[], none⟩).1).getD
        (createResult initialState []))

/-! ## Multi-target optimizer (`src/optimization/multi-product-optimizer.ts`)

The per-substance states travel as an insertion-ordered `Map`, modelled as an
association list (`MultiStates`). -/

abbrev MultiStates := List (String × MixState)

structure MultiSubstanceOptimizationOptions where
  baseSubstances : List String
  maxSteps : Nat
  availableIngredients : Option (List String) := none
  budgetLimit : Option ℚ := none
  minAddictionLevel : Option ℚ := none

structure SubstanceMixResult where
  substance : String
  mixState : MixState
  finalEffects : List String
  sellPrice : ℚ
  profit : ℚ
  profitMargin : ℚ
  totalAddiction : ℚ
deriving DecidableEq

structure MultiSubstanceOptimizationResult where
  sequence : List String
  substanceResults : List SubstanceMixResult
  totalCost : ℚ
  totalSellPrice : ℚ
  totalProfit : ℚ
  averageProfitMargin : ℚ
deriving DecidableEq

structure MultiCacheEntry where
  result : MultiSubstanceOptimizationResult
  stepsUsed : Nat
deriving DecidableEq

structure MultiSearchCtx where
  cache : List (List Char × MultiCacheEntry)
  globalBest : Option MultiSubstanceOptimizationResult
deriving DecidableEq

/-- `calculateCombinedProfit`: sums sell prices, while `totalCost` is
re-assigned each iteration and so ends at the last state's cost (all states
share one cost; `0` for an empty map). -/
def calculateCombinedProfit (states : MultiStates) : ℚ :=
  let acc := states.foldl
    (fun (acc : ℚ × ℚ) p => (acc.1 + p.2.currentValue, p.2.totalCost)) (0, 0)
  acc.1 - acc.2

/-- `getTotalCost`: the first tracked state's cumulative cost, `0` if none. -/
def getTotalCost (states : MultiStates) : ℚ :=
  match states with
  | [] => 0
  | (_, st) :: _ => st.totalCost

/-- `getMultiSubstanceStateKey`: per-substance `name:` plus sorted effects
joined with commas, the per-substance keys sorted and joined with `|`. -/
def getMultiSubstanceStateKey (states : MultiStates) : List Char :=
  joinChars '|' (sortBy charListLe
    (states.map (fun p =>
      p.1.data ++ ':' :: joinChars ',' ((sortStrings p.2.effects).map String.data))))

/-- `MultiProductOptimizer.estimateMaxCombinedProfit`. -/
def estimateMaxCombinedProfit (c : Catalog) (states : MultiStates)
    (stepsRemaining : Nat) (availableIngredients : List String) : ℚ :=
  if stepsRemaining = 0 then calculateCombinedProfit states
  else
    let totalOptimisticProfit := states.foldl
      (fun acc p =>
        let highestEffects := getHighestValueEffects c stepsRemaining
        let optimisticMultiplier := highestEffects.foldl
          (fun a e => if e.name ∈ p.2.effects then a else a + e.multiplier) 0
        let basePrice := getBasePrice c p.1
        let currentMultiplier := getCurrentMultiplier c p.2
        acc + (basePrice * (1 + currentMultiplier + optimisticMultiplier)
          - p.2.totalCost))
      0
    let cheapestCosts :=
      (sortBy (fun a b => decide (a ≤ b))
        (availableIngredients.map (getIngredientCost c))).take stepsRemaining
    totalOptimisticProfit - cheapestCosts.foldl (· + ·) 0

/-- `MultiProductOptimizer.createResult`.  The running per-substance profit
sum is dead in the source (overwritten by the adjusted total), so only the
adjusted total appears. -/
def createMultiResult (states : MultiStates) (sequence : List String) :
    MultiSubstanceOptimizationResult :=
  let totalCost := if 0 < sequence.length then getTotalCost states else 0
  let substanceResults := states.map (fun p =>
    let profit := calculateProfit p.2
    let profitMargin :=
      if p.2.currentValue > 0 then profit / p.2.currentValue * 100 else 0
    (⟨p.1, p.2, p.2.effects, p.2.currentValue, profit, profitMargin,
      p.2.totalAddiction⟩ : SubstanceMixResult))
  let totalSellPrice := states.foldl (fun acc p => acc + p.2.currentValue) 0
  let adjustedTotalProfit := totalSellPrice - totalCost
  let averageProfitMargin :=
    if totalSellPrice > 0 then adjustedTotalProfit / totalSellPrice * 100
    else 0
  ⟨sequence, substanceResults, totalCost, totalSellPrice, adjustedTotalProfit,
    averageProfitMargin⟩

/-- `MultiProductOptimizer.updateGlobalBest`. -/
def updateGlobalBestM (ctx : MultiSearchCtx)
    (result : MultiSubstanceOptimizationResult) : MultiSearchCtx :=
  match ctx.globalBest with
  | none => { ctx with globalBest := some result }
  | some gb =>
    if result.totalProfit > gb.totalProfit then
      { ctx with globalBest := some result }
    else ctx

/-- The multi-target best-candidate update
(`result && (!bestResult || result.totalProfit > bestResult.totalProfit)`). -/
def pickBestM (best : Option MultiSubstanceOptimizationResult)
    (result : Option MultiSubstanceOptimizationResult) :
    Option MultiSubstanceOptimizationResult :=
  match result, best with
  | some r, some b => if r.totalProfit > b.totalProfit then some r else some b
  | some r, none => some r
  | none, b => b

/-- The all-substances application step: each tracked state receives the same
ingredient; one failure aborts the whole step (`validApplication`). -/
def applyIngredientToAll (c : Catalog) (states : MultiStates)
    (ingredientName : String) : Option MultiStates :=
  states.mapM (fun p =>
    (applyIngredient c p.2 ingredientName).map (fun st => (p.1, st)))

/-- Cache probe plus pruning test of `MultiProductOptimizer.search`. -/
def cacheAndPruneM (c : Catalog) (availableIngredients : List String)
    (stepsRemaining : Nat) (currentStates : MultiStates)
    (currentSequence : List String) (ctx : MultiSearchCtx)
    (core : List Char → Option MultiSubstanceOptimizationResult × MultiSearchCtx) :
    Option MultiSubstanceOptimizationResult × MultiSearchCtx :=
  let stateKey := getMultiSubstanceStateKey currentStates
  let cacheHit := match mapGet? ctx.cache stateKey with
    | some cached =>
      if cached.stepsUsed ≤ currentSequence.length then some cached.result
      else none
    | none => none
  match cacheHit with
  | some result => (some result, ctx)
  | none =>
    let maxPossibleProfit :=
      estimateMaxCombinedProfit c currentStates stepsRemaining
        availableIngredients
    match ctx.globalBest with
    | some gb =>
      if maxPossibleProfit ≤ gb.totalProfit then (none, ctx) else core stateKey
    | none => core stateKey

/-- The ingredient loop of `MultiProductOptimizer.search`. -/
def searchLoopM (c : Catalog) (budgetLimit : Option ℚ)
    (searchFn : MultiStates → List String → MultiSearchCtx →
      Option MultiSubstanceOptimizationResult × MultiSearchCtx)
    (currentStates : MultiStates) (currentSequence : List String) :
    List String → Option MultiSubstanceOptimizationResult → MultiSearchCtx →
      Option MultiSubstanceOptimizationResult × MultiSearchCtx
  | [], bestResult, ctx => (bestResult, ctx)
  | ingredient :: rest, bestResult, ctx =>
    if qTruthy budgetLimit ∧
        (budgetLimit.getD 0) <
          getTotalCost currentStates + getIngredientCost c ingredient then
      searchLoopM c budgetLimit searchFn currentStates currentSequence rest
        bestResult ctx
    else
      match applyIngredientToAll c currentStates ingredient with
      | none =>
        searchLoopM c budgetLimit searchFn currentStates currentSequence rest
          bestResult ctx
      | some newStates =>
        let r := searchFn newStates (currentSequence ++ [ingredient]) ctx
        searchLoopM c budgetLimit searchFn currentStates currentSequence rest
          (pickBestM bestResult r.1) r.2

/-- `MultiProductOptimizer.search`. -/
def msearch (c : Catalog) (budgetLimit minAddictionLevel : Option ℚ)
    (availableIngredients : List String) :
    Nat → MultiStates → List String → MultiSearchCtx →
      Option MultiSubstanceOptimizationResult × MultiSearchCtx
  | 0, currentStates, currentSequence, ctx =>
    cacheAndPruneM c availableIngredients 0 currentStates currentSequence ctx
      (fun stateKey =>
        if qTruthy minAddictionLevel ∧
            currentStates.any
              (fun p => p.2.totalAddiction < (minAddictionLevel.getD 0)) then
          (none, ctx)
        else
          let result := createMultiResult currentStates currentSequence
          let ctx1 := updateGlobalBestM ctx result
          let ctx2 := { ctx1 with
            cache := mapSet ctx1.cache stateKey
              ⟨result, currentSequence.length⟩ }
          (some result, ctx2))
  | stepsRemaining + 1, currentStates, currentSequence, ctx =>
    cacheAndPruneM c availableIngredients (stepsRemaining + 1) currentStates
      currentSequence ctx
      (fun stateKey =>
        let r :=
          searchLoopM c budgetLimit
            (msearch c budgetLimit minAddictionLevel availableIngredients
              stepsRemaining)
            currentStates currentSequence availableIngredients none ctx
        match r.1 with
        | some best =>
          let ctx2 : MultiSearchCtx := { r.2 with
            cache := mapSet r.2.cache stateKey ⟨best, currentSequence.length⟩ }
          (some best, updateGlobalBestM ctx2 best)
        | none => (none, r.2))

/-- `MultiProductOptimizer.findOptimalMix`: validation of the substance list,
construction of the initial states map (a thrown not-found error escapes),
the zero-steps shortcut, then the shared-sequence search. -/
def multiFindOptimalMix (c : Catalog)
    (options : MultiSubstanceOptimizationOptions) :
    Except String MultiSubstanceOptimizationResult :=
  if options.baseSubstances.length = 0 then
    .error "At least one base substance must be specified"
  else
    let availableIngredients :=
      options.availableIngredients.getD (getAllIngredients c)
    match (options.baseSubstances.foldlM
        (fun (m : MultiStates) n =>
          match createInitialState c n with
          | none => Except.error ("Substance not found: " ++ n)
          | some st => Except.ok (mapSet m n st))
        ([] : MultiStates) : Except String MultiStates) with
    | .error e => .error e
    | .ok initialStates =>
      if options.maxSteps = 0 then .ok (createMultiResult initialStates [])
      else
        .ok (((msearch c options.budgetLimit options.minAddictionLevel
            availableIngredients options.maxSteps initialStates []
            ⟨[], none⟩).1).getD
          (createMultiResult initialStates []))

/-! ## Predicates and relations used by the verification -/

/-- An effect name that is nonempty and free of the two cache-key separator
characters; every effect name the catalog can put into a state is of this
shape, which makes the joined cache keys injective. -/
def goodName (s : String) : Prop :=
  s.data ≠ [] ∧ '|' ∉ s.data ∧ ',' ∉ s.data

instance (s : String) : Decidable (goodName s) := by
  unfold goodName; infer_instance

/-- All effect names a state can ever contain are good. -/
def goodE (E : List String) : Prop := ∀ e ∈ E, goodName e

instance (E : List String) : Decidable (goodE E) :=
  List.decidableBAll _ E

/-- Every effect name the catalog can introduce into a mix state (initial
effects, rule replacements, default effects) is good. -/
def GoodCatalog (c : Catalog) : Prop :=
  (∀ i ∈ c.ingredients, goodName i.defaultEffect ∧
    ∀ r ∈ i.transformationRules, goodName r.replacement) ∧
  (∀ s ∈ c.substances, ∀ e ∈ s.initialEffects, goodName e)

instance (c : Catalog) : Decidable (GoodCatalog c) := by
  unfold GoodCatalog; infer_instance

/-- The observable correspondence between a single-target result and a
multi-target result tracking one substance. -/
def resultRel (r : OptimizationResult)
    (m : MultiSubstanceOptimizationResult) : Prop :=
  m.sequence = r.sequence ∧ m.totalCost = r.totalCost ∧
    m.totalProfit = r.profit

/-- Componentwise relation on `Option`. -/
def optRel {α β : Type} (R : α → β → Prop) : Option α → Option β → Prop
  | none, none => True
  | some a, some b => R a b
  | _, _ => False

/-- Componentwise relation on lists of equal length. -/
def listRel {α β : Type} (R : α → β → Prop) : List α → List β → Prop
  | [], [] => True
  | a :: as, b :: bs => R a b ∧ listRel R as bs
  | _, _ => False

/-- The multi-target cache key of a one-substance map with effect set `E`. -/
def mkeySingle (name : String) (E : List String) : List Char :=
  name.data ++ ':' :: joinChars ',' ((sortStrings E).map String.data)

/-- Correspondence of one cache entry of the single-target optimizer with one
of the multi-target optimizer tracking the single substance `name`: the keys
encode the same effect set, and the payloads are related. -/
def entryRel (name : String) (p : List Char × CacheEntry)
    (q : List Char × MultiCacheEntry) : Prop :=
  (∃ E, goodE E ∧ p.1 = getStateKey E ∧ q.1 = mkeySingle name E) ∧
  p.2.stepsUsed = q.2.stepsUsed ∧ resultRel p.2.result q.2.result

/-- Correspondence of the two optimizers' mutable contexts. -/
def ctxRel (name : String) (ctx1 : SearchCtx) (ctx2 : MultiSearchCtx) :
    Prop :=
  listRel (entryRel name) ctx1.cache ctx2.cache ∧
    optRel resultRel ctx1.globalBest ctx2.globalBest

/-- All results held in a single-target search context satisfy `P`. -/
def ctxP (P : OptimizationResult → Prop) (ctx : SearchCtx) : Prop :=
  (∀ p ∈ ctx.cache, P p.2.result) ∧
  (∀ r, ctx.globalBest = some r → P r)

/-- All results held in a multi-target search context satisfy `P`. -/
def ctxPM (P : MultiSubstanceOptimizationResult → Prop)
    (ctx : MultiSearchCtx) : Prop :=
  (∀ p ∈ ctx.cache, P p.2.result) ∧
  (∀ r, ctx.globalBest = some r → P r)

/-! ## Concrete fixtures for counterexamples and witnesses -/

/-- A mix state over the catalog basing OG Kush that already carries the two
highest-multiplier effects. -/
def cexState : MixState :=
  ⟨"OG Kush", ["Shrinking", "Zombifying"], [], 0, 763/10, 763/10, 93⟩

/-- A two-object heap: address 0 holds the effect set of an OG Kush initial
state, address 1 its (empty) ingredient array. -/
def cHeap : Heap :=
  ⟨fun a => if a = 0 then ["Calming"] else [], 2⟩

/-- The heap-resident OG Kush initial state living at those addresses. -/
def cHSt : HMixState := ⟨"OG Kush", 0, 1, 0, 77/2, 77/2, 0⟩

/-- The heap-resident state produced by applying Cuke to `cHSt` in `cHeap`. -/
def cHStOut : HMixState := ⟨"OG Kush", 2, 3, 2, 231/5, 221/5, 34⟩

/-- The heap produced alongside `cHStOut`: two fresh objects, the old two
untouched. -/
def cHeapOut : Heap :=
  ⟨fun a => if a = 3 then ["Cuke"]
    else if a = 2 then ["Calming", "Energizing"]
    else cHeap.store a, 4⟩

end S1

/- The rational operations carry an `@[irreducible]` marking in this
toolchain, which blocks `decide`/`rfl` evaluation of the embedded program on
concrete inputs; restore the default reducibility of their (perfectly
computable) definitions. -/
set_option allowUnsafeReducibility true
attribute [semireducible] Rat.add Rat.mul Rat.sub Rat.inv Rat.ofScientific

namespace S1

/-! ## Basic lemmas about the set and map models -/

theorem mem_setAdd {s : List String} {e x : String} :
    x ∈ setAdd s e → x ∈ s ∨ x = e := by
  unfold setAdd
  split
  · exact Or.inl
  · intro h
    rcases List.mem_append.mp h with h | h
    · exact Or.inl h
    · exact Or.inr (by simpa using h)

theorem mem_setDelete {s : List String} {e x : String} :
    x ∈ setDelete s e → x ∈ s := by
  induction s with
  | nil => simp [setDelete]
  | cons y ys ih =>
    unfold setDelete
    split
    · intro h; exact List.mem_cons_of_mem _ (ih h)
    · intro h
      rcases List.mem_cons.mp h with h | h
      · exact h ▸ List.mem_cons_self _ _
      · exact List.mem_cons_of_mem _ (ih h)

theorem setDelete_length_le (s : List String) (e : String) :
    (setDelete s e).length ≤ s.length := by
  induction s with
  | nil => simp [setDelete]
  | cons y ys ih =>
    unfold setDelete
    split
    · exact Nat.le_succ_of_le ih
    · simpa using ih

theorem setDelete_length_lt {s : List String} {e : String} (h : e ∈ s) :
    (setDelete s e).length < s.length := by
  induction s with
  | nil => simp at h
  | cons y ys ih =>
    unfold setDelete
    split
    · exact Nat.lt_succ_of_le (setDelete_length_le ys e)
    · rename_i hne
      rcases List.mem_cons.mp h with h | h
      · exact absurd h.symm hne
      · simpa using ih h

theorem setAdd_length_le (s : List String) (e : String) :
    (setAdd s e).length ≤ s.length + 1 := by
  unfold setAdd
  split
  · exact Nat.le_succ _
  · simp

theorem mem_listToSet {xs : List String} {x : String} :
    x ∈ listToSet xs → x ∈ xs := by
  unfold listToSet
  suffices h : ∀ (acc : List String), x ∈ xs.foldl setAdd acc →
      x ∈ acc ∨ x ∈ xs by
    intro hx
    rcases h [] hx with h | h
    · simp at h
    · exact h
  induction xs with
  | nil => intro acc h; exact Or.inl h
  | cons y ys ih =>
    intro acc h
    rcases ih (setAdd acc y) h with h | h
    · rcases mem_setAdd h with h | h
      · exact Or.inl h
      · exact Or.inr (h ▸ List.mem_cons_self _ _)
    · exact Or.inr (List.mem_cons_of_mem _ h)

/-! ## Lemmas about the state transition engine -/

theorem applyRules_length_le (rules : List TransformationRule)
    (E : List String) : (applyRules rules E).length ≤ E.length := by
  induction rules generalizing E with
  | nil => simp [applyRules]
  | cons r rs ih =>
    unfold applyRules
    simp only [List.foldl_cons]
    refine le_trans (ih _) ?_
    split
    · rename_i hmem
      have h1 := setAdd_length_le (setDelete E r.condition) r.replacement
      have h2 := setDelete_length_lt hmem
      omega
    · exact le_refl _

theorem addDefaultEffect_length_le {E : List String} {d : String}
    (h : E.length ≤ 8) : (addDefaultEffect d E).length ≤ 8 := by
  unfold addDefaultEffect MAX_EFFECTS
  split
  · rename_i hcond
    simp only [List.length_append, List.length_singleton]
    omega
  · exact h

/-- Destructured form of a successful `applyIngredient`. -/
theorem applyIngredient_eq_some {c : Catalog} {st st' : MixState}
    {n : String} (h : applyIngredient c st n = some st') :
    ∃ i s, getIngredient c n = some i ∧
      getSubstance c st.baseSubstance = some s ∧
      st' = ⟨st.baseSubstance,
        addDefaultEffect i.defaultEffect (applyRules i.transformationRules st.effects),
        st.ingredientsUsed ++ [n], st.totalCost + i.cost,
        calculateValueFromEffects c s.basePrice
          (addDefaultEffect i.defaultEffect (applyRules i.transformationRules st.effects)),
        calculateValueFromEffects c s.basePrice
          (addDefaultEffect i.defaultEffect (applyRules i.transformationRules st.effects))
          - (st.totalCost + i.cost),
        calculateTotalAddiction c
          (addDefaultEffect i.defaultEffect (applyRules i.transformationRules st.effects))⟩ := by
  unfold applyIngredient at h
  cases hI : getIngredient c n with
  | none => rw [hI] at h; simp at h
  | some i =>
    rw [hI] at h
    cases hS : getSubstance c st.baseSubstance with
    | none => rw [hS] at h; simp at h
    | some s =>
      rw [hS] at h
      simp only [Option.bind_eq_bind, Option.some_bind, Option.some_inj] at h
      exact ⟨i, s, rfl, rfl, h.symm⟩

theorem applyIngredient_effects_le {c : Catalog} {st st' : MixState}
    {n : String} (hlen : st.effects.length ≤ 8)
    (h : applyIngredient c st n = some st') : st'.effects.length ≤ 8 := by
  obtain ⟨i, s, _, _, rfl⟩ := applyIngredient_eq_some h
  exact addDefaultEffect_length_le (le_trans (applyRules_length_le _ _) hlen)

theorem createInitialState_eq_some {c : Catalog} {n : String} {st : MixState}
    (h : createInitialState c n = some st) :
    ∃ s, getSubstance c n = some s ∧
      st.baseSubstance = n ∧ st.effects = listToSet s.initialEffects ∧
      st.ingredientsUsed = [] ∧ st.totalCost = 0 := by
  unfold createInitialState at h
  cases hS : getSubstance c n with
  | none => rw [hS] at h; simp at h
  | some s =>
    rw [hS] at h
    cases h
    exact ⟨s, rfl, rfl, rfl, rfl, rfl⟩

/-- Generic fold preservation along `applySequence`. -/
theorem foldl_applyIngredient_preserves {c : Catalog}
    (P : MixState → Prop)
    (hstep : ∀ st st' n, P st → applyIngredient c st n = some st' → P st')
    (l : List String) :
    ∀ (o : Option MixState) (st : MixState),
      (∀ st0, o = some st0 → P st0) →
      l.foldl (fun acc n => acc.bind (fun st => applyIngredient c st n)) o
        = some st → P st := by
  induction l with
  | nil => intro o st h0 h; exact h0 st h
  | cons n ns ih =>
    intro o st h0 h
    simp only [List.foldl_cons] at h
    refine ih _ st ?_ h
    intro st1 h1
    cases ho : o with
    | none => rw [ho] at h1; simp at h1
    | some st2 =>
      rw [ho] at h1
      simp only [Option.some_bind] at h1
      exact hstep st2 st1 n (h0 st2 ho) h1

/-! ## C3: the effect-limit invariant -/

/-- C3.  Effect-limit invariant: starting from any catalog substance, any
finite sequence of `applyIngredient` steps that succeeds leaves an effect
set of size at most 8. -/
theorem effect_limit_invariant (subName : String) (ings : List String)
    (st : MixState) (h : applySequence schedule1 subName ings = some st) :
    st.effects.length ≤ 8 := by
  unfold applySequence at h
  refine foldl_applyIngredient_preserves (fun st => st.effects.length ≤ 8)
    (fun st st' n hP happ => applyIngredient_effects_le hP happ) ings _ st ?_ h
  intro st0 h0
  obtain ⟨s, hs, _, he, _, _⟩ := createInitialState_eq_some h0
  have hmem : s ∈ SUBSTANCES := List.mem_of_find?_eq_some hs
  have hall : ∀ s ∈ SUBSTANCES, (listToSet s.initialEffects).length ≤ 8 := by
    decide
  rw [he]
  exact hall s hmem

/-- C3 witness: a concrete three-step run stays within the limit. -/
theorem effect_limit_invariant_witness :
    ((applySequence schedule1 "OG Kush"
      ["Cuke", "Banana", "Mega Bean"]).get (by decide)).effects.length ≤ 8 :=
  effect_limit_invariant "OG Kush" ["Cuke", "Banana", "Mega Bean"] _
    (Option.some_get _).symm

/-! ## C9: cost monotonicity -/

theorem schedule1_ingredient_cost_nonneg {n : String} {i : Ingredient}
    (h : getIngredient schedule1 n = some i) : 0 ≤ i.cost := by
  have hmem : i ∈ INGREDIENTS := List.mem_of_find?_eq_some h
  have hall : ∀ i ∈ INGREDIENTS, 0 ≤ i.cost := by decide
  exact hall i hmem

/-- C9.  Cost monotonicity: along any successful ingredient sequence on a
catalog substance, the cumulative cost after `k+1` steps is at least the
cumulative cost after `k` steps. -/
theorem cost_monotone (subName : String) (ings : List String) (k : Nat)
    (st st' : MixState)
    (h1 : applySequence schedule1 subName (ings.take k) = some st)
    (h2 : applySequence schedule1 subName (ings.take (k + 1)) = some st') :
    st.totalCost ≤ st'.totalCost := by
  by_cases hk : ings.length ≤ k
  · rw [List.take_of_length_le hk, List.take_of_length_le (le_trans hk (Nat.le_succ k))] at *
    rw [h1] at h2
    cases h2
    exact le_refl _
  · push_neg at hk
    rw [List.take_succ, List.getElem?_eq_getElem hk] at h2
    unfold applySequence at h1 h2
    rw [List.foldl_append, h1] at h2
    simp only [Option.toList_some] at h2
    simp only [List.foldl_cons, List.foldl_nil, Option.some_bind] at h2
    obtain ⟨i, s, hI, _, rfl⟩ := applyIngredient_eq_some h2
    have := schedule1_ingredient_cost_nonneg hI
    show st.totalCost ≤ st.totalCost + i.cost
    linarith

/-- C9 witness at a concrete sequence and index. -/
theorem cost_monotone_witness :
    ((applySequence schedule1 "OG Kush"
        (["Cuke", "Banana"].take 1)).get (by decide)).totalCost ≤
      ((applySequence schedule1 "OG Kush"
        (["Cuke", "Banana"].take 2)).get (by decide)).totalCost :=
  cost_monotone "OG Kush" ["Cuke", "Banana"] 1 _ _
    (Option.some_get _).symm (Option.some_get _).symm

/-! ## C5: the transformation-rule pass and default-effect policy -/

/-- C5.  For any state holding exactly the effect `Calming`, applying the
catalog ingredient whose rule list turns `Calming` into `Sneaky` and whose
default effect is `Gingeritis` (Banana) produces exactly the effect set
`{Sneaky, Gingeritis}`: the rule fires, removing its condition and inserting
its replacement, no later rule of the pass matches the mutated set, and the
default effect is inserted because the set is below the limit and lacks it. -/
theorem calming_banana_transformation (st : MixState)
    (heff : st.effects = ["Calming"])
    (hsub : (getSubstance schedule1 st.baseSubstance).isSome) :
    (applyIngredient schedule1 st "Banana").map MixState.effects
      = some ["Sneaky", "Gingeritis"] := by
  rw [Option.isSome_iff_exists] at hsub
  obtain ⟨s, hs⟩ := hsub
  unfold applyIngredient
  rw [show getIngredient schedule1 "Banana"
      = some ⟨"Banana", 2, "Gingeritis", [
        ⟨"Calming", "Sneaky"⟩, ⟨"Cyclopean", "Energizing"⟩,
        ⟨"Disorienting", "Focused"⟩, ⟨"Energizing", "Thought-Provoking"⟩,
        ⟨"Focused", "Seizure-Inducing"⟩, ⟨"Long Faced", "Refreshing"⟩,
        ⟨"Paranoia", "Jennerising"⟩, ⟨"Smelly", "Anti-Gravity"⟩,
        ⟨"Toxic", "Smelly"⟩]⟩ from rfl, hs, heff]
  simp only [Option.bind_eq_bind, Option.some_bind, Option.map_some]
  rfl

/-- C5 witness at a concrete state. -/
theorem calming_banana_transformation_witness :
    (applyIngredient schedule1
        ⟨"OG Kush", ["Calming"], [], 0, 77/2, 77/2, 0⟩ "Banana").map
      MixState.effects = some ["Sneaky", "Gingeritis"] :=
  calming_banana_transformation _ rfl (by decide)

/-! ## C1: the branch-and-bound estimate can under-estimate -/

/-- C1.  The pruning estimate is not an over-estimate of achievable profit:
from `cexState` (a mix state on OG Kush already holding the two
highest-multiplier effects, zero cost so far) with two steps remaining and
available ingredients `[Cuke, Horse Semen]`, the estimate is `65.3`, yet
applying `Cuke` twice (both drawn from that list) reaches a state of profit
`80`.  The estimate prices the future at the two cheapest distinct list
entries (2 + 9) although repeating the cheapest ingredient costs only 4. -/
theorem estimate_max_profit_not_upper_bound :
    estimateMaxProfit schedule1 cexState 2 ["Cuke", "Horse Semen"] = 653/10 ∧
    ((applyIngredient schedule1 cexState "Cuke").bind
        (fun st => applyIngredient schedule1 st "Cuke")).map calculateProfit
      = some 80 ∧
    (653/10 : ℚ) < 80 :=
  ⟨by decide, by decide, by decide⟩

/-! ## C8: validation of an empty base-substance list -/

/-- C8 counterexample: the validation error is raised, but its message is
`At least one base substance must be specified`, not the message the claim
states (`at least one base substance required`). -/
theorem empty_substances_message_cex :
    multiFindOptimalMix schedule1 { baseSubstances := [], maxSteps := 3 }
        = .error "At least one base substance must be specified" ∧
      "At least one base substance must be specified"
        ≠ "at least one base substance required" :=
  ⟨rfl, by decide⟩

/-- C8 amended.  An empty base-substance list makes `findOptimalMix` fail
synchronously (before any search) with the validation message the code
carries, and any non-empty list of known substances never produces that
failure: the call returns a result. -/
theorem empty_substances_validation :
    (∀ options : MultiSubstanceOptimizationOptions,
      options.baseSubstances = [] →
      multiFindOptimalMix schedule1 options
        = .error "At least one base substance must be specified") ∧
    (∀ options : MultiSubstanceOptimizationOptions,
      options.baseSubstances ≠ [] →
      (∀ n ∈ options.baseSubstances, (getSubstance schedule1 n).isSome) →
      ∃ m, multiFindOptimalMix schedule1 options = .ok m) := by
  constructor
  · intro options h
    unfold multiFindOptimalMix
    rw [h]
    rfl
  · intro options hne hknown
    obtain ⟨bs, ms, ai, bl, mal⟩ := options
    simp only at hne hknown ⊢
    have hfold : ∀ (l : List String) (m0 : MultiStates),
        (∀ n ∈ l, (getSubstance schedule1 n).isSome) →
        ∃ m', (l.foldlM
          (fun (m : MultiStates) n =>
            match createInitialState schedule1 n with
            | none => Except.error ("Substance not found: " ++ n)
            | some st => Except.ok (mapSet m n st))
          m0 : Except String MultiStates) = .ok m' := by
      intro l
      induction l with
      | nil => intro m0 _; exact ⟨m0, rfl⟩
      | cons n ns ih =>
        intro m0 hk
        have hn : (getSubstance schedule1 n).isSome := hk n (List.mem_cons_self _ _)
        rw [Option.isSome_iff_exists] at hn
        obtain ⟨s, hs⟩ := hn
        have hcis : (createInitialState schedule1 n).isSome := by
          unfold createInitialState
          rw [hs]
          rfl
        rw [Option.isSome_iff_exists] at hcis
        obtain ⟨st, hst⟩ := hcis
        obtain ⟨m', hm'⟩ := ih (mapSet m0 n st)
          (fun x hx => hk x (List.mem_cons_of_mem _ hx))
        refine ⟨m', ?_⟩
        simpa [List.foldlM, hst] using hm'
    unfold multiFindOptimalMix
    have hlen : ¬ bs.length = 0 := by
      simpa using hne
    rw [if_neg hlen]
    obtain ⟨m', hm'⟩ := hfold bs [] hknown
    cases ms with
    | zero =>
      refine ⟨createMultiResult m' [], ?_⟩
      rw [hm']
      rfl
    | succ j =>
      refine ⟨((msearch schedule1 bl mal (ai.getD (getAllIngredients schedule1))
          (j + 1) m' [] ⟨[], none⟩).1).getD (createMultiResult m' []), ?_⟩
      rw [hm']
      rfl

/-- C8 witness: the validation part at the empty list and the success part
at a concrete two-substance list. -/
theorem empty_substances_validation_witness :
    multiFindOptimalMix schedule1 { baseSubstances := [], maxSteps := 5 }
        = .error "At least one base substance must be specified" ∧
      ∃ m, multiFindOptimalMix schedule1
        { baseSubstances := ["OG Kush", "Meth"], maxSteps := 0 } = .ok m :=
  ⟨empty_substances_validation.1 _ rfl,
    empty_substances_validation.2 _ (by decide) (by decide)⟩

/-! ## C7: the frame property of `applyIngredient` -/

/-- C7.  `applyIngredient` allocates fresh set and array objects for the new
state: every heap cell the input state can reach is left untouched, the
output state's mutable structures live at addresses distinct from the
input's, the scalar fields of the input record are (by value semantics)
unchanged, and reading the output back yields exactly the value-level
`applyIngredient` result. -/
theorem apply_ingredient_frame (c : Catalog) (h : Heap) (st : HMixState)
    (n : String) (st' : HMixState) (h' : Heap)
    (he : st.effects < h.next) (hi : st.ingredientsUsed < h.next)
    (happ : applyIngredientH c h st n = some (st', h')) :
    (∀ a, a < h.next → h'.store a = h.store a) ∧
    st'.effects ≠ st.effects ∧ st'.effects ≠ st.ingredientsUsed ∧
    st'.ingredientsUsed ≠ st.effects ∧
    st'.ingredientsUsed ≠ st.ingredientsUsed ∧
    st'.baseSubstance = st.baseSubstance ∧
    applyIngredient c (readState h st) n = some (readState h' st') := by
  unfold applyIngredientH at happ
  cases hI : getIngredient c n with
  | none => rw [hI] at happ; simp at happ
  | some i =>
    rw [hI] at happ
    cases hS : getSubstance c st.baseSubstance with
    | none => rw [hS] at happ; simp at happ
    | some s =>
      rw [hS] at happ
      simp only [Option.bind_eq_bind, Option.some_bind, Option.some_inj] at happ
      injection happ with h1 h2
      subst h1
      subst h2
      refine ⟨?_, ?_, ?_, ?_, ?_, rfl, ?_⟩
      · intro a ha
        show (if a = h.next + 1 then _ else if a = h.next then _ else h.store a)
          = h.store a
        rw [if_neg (by omega), if_neg (by omega)]
      · show h.next ≠ st.effects
        omega
      · show h.next ≠ st.ingredientsUsed
        omega
      · show h.next + 1 ≠ st.effects
        omega
      · show h.next + 1 ≠ st.ingredientsUsed
        omega
      · unfold applyIngredient readState
        dsimp only
        rw [hI, hS]
        simp only [Option.bind_eq_bind, Option.some_bind, Option.some_inj]
        rw [if_neg (by omega : ¬ h.next = h.next + 1)]
        simp

/-- C7 witness at a concrete heap and state. -/
theorem apply_ingredient_frame_witness :
    (∀ a, a < cHeap.next → cHeapOut.store a = cHeap.store a) ∧
    cHStOut.effects ≠ cHSt.effects ∧
    cHStOut.effects ≠ cHSt.ingredientsUsed ∧
    cHStOut.ingredientsUsed ≠ cHSt.effects ∧
    cHStOut.ingredientsUsed ≠ cHSt.ingredientsUsed ∧
    cHStOut.baseSubstance = cHSt.baseSubstance ∧
    applyIngredient schedule1 (readState cHeap cHSt) "Cuke"
      = some (readState cHeapOut cHStOut) :=
  apply_ingredient_frame schedule1 cHeap cHSt "Cuke" cHStOut cHeapOut
    (by decide) (by decide) rfl

/-! ## Generic preservation through the single-target search -/

theorem mem_mapSet {κ α : Type} [DecidableEq κ] {m : List (κ × α)} {k : κ}
    {v : α} {p : κ × α} (h : p ∈ mapSet m k v) : p = (k, v) ∨ p ∈ m := by
  induction m with
  | nil => simpa [mapSet] using h
  | cons q rest ih =>
    unfold mapSet at h
    split at h
    · rcases List.mem_cons.mp h with h | h
      · exact Or.inl h
      · exact Or.inr (List.mem_cons_of_mem _ h)
    · rcases List.mem_cons.mp h with h | h
      · exact Or.inr (h ▸ List.mem_cons_self _ _)
      · rcases ih h with h | h
        · exact Or.inl h
        · exact Or.inr (List.mem_cons_of_mem _ h)

theorem mapGet?_mem {κ α : Type} [DecidableEq κ] {m : List (κ × α)} {k : κ}
    {v : α} (h : mapGet? m k = some v) : (k, v) ∈ m := by
  induction m with
  | nil => simp [mapGet?] at h
  | cons q rest ih =>
    unfold mapGet? at h
    split at h
    · rename_i heq
      cases h
      exact heq ▸ List.mem_cons_self _ _
    · exact List.mem_cons_of_mem _ (ih h)

theorem updateGlobalBest_none {ctx : SearchCtx} {r : OptimizationResult}
    (h : ctx.globalBest = none) :
    updateGlobalBest ctx r = { ctx with globalBest := some r } := by
  unfold updateGlobalBest
  rw [h]

theorem updateGlobalBest_some {ctx : SearchCtx} {r gb : OptimizationResult}
    (h : ctx.globalBest = some gb) :
    updateGlobalBest ctx r =
      if r.profit > gb.profit then { ctx with globalBest := some r }
      else ctx := by
  unfold updateGlobalBest
  rw [h]

theorem ctxP_updateGlobalBest {P : OptimizationResult → Prop} {ctx : SearchCtx}
    {r : OptimizationResult} (h : ctxP P ctx) (hr : P r) :
    ctxP P (updateGlobalBest ctx r) := by
  cases hgb : ctx.globalBest with
  | none =>
    rw [updateGlobalBest_none hgb]
    exact ⟨h.1, fun r' hr' => by cases hr'; exact hr⟩
  | some gb =>
    rw [updateGlobalBest_some hgb]
    split
    · exact ⟨h.1, fun r' hr' => by cases hr'; exact hr⟩
    · exact h

theorem ctxP_setCache {P : OptimizationResult → Prop} {ctx : SearchCtx}
    {key : List Char} {e : CacheEntry} (h : ctxP P ctx) (he : P e.result) :
    ctxP P { ctx with cache := mapSet ctx.cache key e } := by
  refine ⟨?_, h.2⟩
  intro p hp
  rcases mem_mapSet hp with hp | hp
  · rw [hp]; exact he
  · exact h.1 p hp

theorem pickBest_spec {P : OptimizationResult → Prop}
    {best res : Option OptimizationResult}
    (hb : ∀ r, best = some r → P r) (hr : ∀ r, res = some r → P r) :
    ∀ r, pickBest best res = some r → P r := by
  intro r h
  unfold pickBest at h
  rcases res with _ | r1 <;> rcases best with _ | r2
  · cases h
  · cases h; exact hb _ rfl
  · cases h; exact hr _ rfl
  · simp only at h
    split at h
    · cases h; exact hr _ rfl
    · cases h; exact hb _ rfl

/-- Lifting an invariant through the cache-probe-and-prune prelude of
`search`: a cache hit returns a stored result, pruning returns nothing, and
otherwise the continuation runs. -/
theorem cacheAndPrune_invariant (c : Catalog) (avail : List String) (k : Nat)
    (st : MixState) (seq : List String) (ctx : SearchCtx)
    (core : List Char → Option OptimizationResult × SearchCtx)
    (P : OptimizationResult → Prop) (hctx : ctxP P ctx)
    (hcore : (∀ r, (core (getStateKey st.effects)).1 = some r → P r) ∧
      ctxP P (core (getStateKey st.effects)).2) :
    (∀ r, (cacheAndPrune c avail k st seq ctx core).1 = some r → P r) ∧
    ctxP P (cacheAndPrune c avail k st seq ctx core).2 := by
  unfold cacheAndPrune
  cases hget : mapGet? ctx.cache (getStateKey st.effects) with
  | some e =>
    by_cases hsteps : e.stepsUsed ≤ seq.length
    · simp only [hget, if_pos hsteps]
      exact ⟨(fun r hr => by cases hr; exact hctx.1 _ (mapGet?_mem hget)), hctx⟩
    · simp only [hget, if_neg hsteps]
      cases hgb : ctx.globalBest with
      | some gb =>
        by_cases hest : estimateMaxProfit c st k avail ≤ gb.profit
        · simp only [hgb, if_pos hest]
          exact ⟨(fun r hr => by cases hr), hctx⟩
        · simp only [hgb, if_neg hest]
          exact hcore
      | none =>
        simp only [hgb]
        exact hcore
  | none =>
    simp only [hget]
    cases hgb : ctx.globalBest with
    | some gb =>
      by_cases hest : estimateMaxProfit c st k avail ≤ gb.profit
      · simp only [hgb, if_pos hest]
        exact ⟨(fun r hr => by cases hr), hctx⟩
      · simp only [hgb, if_neg hest]
        exact hcore
    | none =>
      simp only [hgb]
      exact hcore

/-- Generic preservation: any per-result property established at the leaves
and preserved by budget-respecting expansion steps holds for every result
the single-target search produces or stores. -/
theorem search_invariant (c : Catalog) (budget minAdd : Option ℚ)
    (avail : List String) (P : OptimizationResult → Prop)
    (Pre : MixState → List String → Nat → Prop)
    (hLeaf : ∀ st seq, Pre st seq 0 → P (createResult st seq))
    (hStep : ∀ st seq k ing st', Pre st seq (k + 1) →
      ¬ (qTruthy budget = true ∧
        (budget.getD 0) < st.totalCost + getIngredientCost c ing) →
      applyIngredient c st ing = some st' → Pre st' (seq ++ [ing]) k) :
    ∀ (k : Nat) (st : MixState) (seq : List String) (ctx : SearchCtx),
      Pre st seq k → ctxP P ctx →
      (∀ r, (search c budget minAdd avail k st seq ctx).1 = some r → P r) ∧
      ctxP P (search c budget minAdd avail k st seq ctx).2 := by
  intro k
  induction k with
  | zero =>
    intro st seq ctx hpre hctx
    simp only [search]
    refine cacheAndPrune_invariant c avail 0 st seq ctx _ P hctx ?_
    dsimp only
    split
    · exact ⟨(fun r hr => by cases hr), hctx⟩
    · have hP : P (createResult st seq) := hLeaf st seq hpre
      refine ⟨(fun r hr => ?_), ?_⟩
      · cases hr
        exact hP
      · exact ctxP_setCache (ctxP_updateGlobalBest hctx hP) hP
  | succ k ih =>
    intro st seq ctx hpre hctx
    have hloop : ∀ (lst : List String) (best : Option OptimizationResult)
        (ctx' : SearchCtx), (∀ r, best = some r → P r) → ctxP P ctx' →
        (∀ r, (searchLoop c budget
          (search c budget minAdd avail k) st seq lst best ctx').1
            = some r → P r) ∧
        ctxP P (searchLoop c budget
          (search c budget minAdd avail k) st seq lst best ctx').2 := by
      intro lst
      induction lst with
      | nil =>
        intro best ctx' hb hc
        exact ⟨hb, hc⟩
      | cons ing rest ihl =>
        intro best ctx' hb hc
        show (∀ r, (searchLoop _ _ _ _ _ (ing :: rest) _ _).1 = some r → P r) ∧ _
        unfold searchLoop
        split
        · exact ihl best ctx' hb hc
        · rename_i hbp
          cases happ : applyIngredient c st ing with
          | none =>
            simp only [happ]
            exact ihl best ctx' hb hc
          | some st' =>
            simp only [happ]
            have hpre' : Pre st' (seq ++ [ing]) k :=
              hStep st seq k ing st' hpre (by simpa using hbp) happ
            have hrec := ih st' (seq ++ [ing]) ctx' hpre' hc
            exact ihl _ _ (pickBest_spec hb hrec.1) hrec.2
    simp only [search]
    refine cacheAndPrune_invariant c avail (k + 1) st seq ctx _ P hctx ?_
    dsimp only
    have hl := hloop avail none ctx (fun r hr => by cases hr) hctx
    cases hbest : (searchLoop c budget (search c budget minAdd avail k)
        st seq avail none ctx).1 with
    | none =>
      simp only [hbest]
      exact ⟨(fun r hr => by cases hr), hl.2⟩
    | some best =>
      simp only [hbest]
      have hPbest : P best := hl.1 best hbest
      refine ⟨(fun r hr => ?_), ?_⟩
      · cases hr
        exact hPbest
      · exact ctxP_updateGlobalBest (ctxP_setCache hl.2 hPbest) hPbest

/-! ## Generic preservation through the multi-target search -/

theorem updateGlobalBestM_none {ctx : MultiSearchCtx}
    {r : MultiSubstanceOptimizationResult} (h : ctx.globalBest = none) :
    updateGlobalBestM ctx r = { ctx with globalBest := some r } := by
  unfold updateGlobalBestM
  rw [h]

theorem updateGlobalBestM_some {ctx : MultiSearchCtx}
    {r gb : MultiSubstanceOptimizationResult} (h : ctx.globalBest = some gb) :
    updateGlobalBestM ctx r =
      if r.totalProfit > gb.totalProfit then { ctx with globalBest := some r }
      else ctx := by
  unfold updateGlobalBestM
  rw [h]

theorem ctxPM_updateGlobalBestM {P : MultiSubstanceOptimizationResult → Prop}
    {ctx : MultiSearchCtx} {r : MultiSubstanceOptimizationResult}
    (h : ctxPM P ctx) (hr : P r) : ctxPM P (updateGlobalBestM ctx r) := by
  cases hgb : ctx.globalBest with
  | none =>
    rw [updateGlobalBestM_none hgb]
    exact ⟨h.1, fun r' hr' => by cases hr'; exact hr⟩
  | some gb =>
    rw [updateGlobalBestM_some hgb]
    split
    · exact ⟨h.1, fun r' hr' => by cases hr'; exact hr⟩
    · exact h

theorem ctxPM_setCache {P : MultiSubstanceOptimizationResult → Prop}
    {ctx : MultiSearchCtx} {key : List Char} {e : MultiCacheEntry}
    (h : ctxPM P ctx) (he : P e.result) :
    ctxPM P { ctx with cache := mapSet ctx.cache key e } := by
  refine ⟨?_, h.2⟩
  intro p hp
  rcases mem_mapSet hp with hp | hp
  · rw [hp]; exact he
  · exact h.1 p hp

theorem pickBestM_spec {P : MultiSubstanceOptimizationResult → Prop}
    {best res : Option MultiSubstanceOptimizationResult}
    (hb : ∀ r, best = some r → P r) (hr : ∀ r, res = some r → P r) :
    ∀ r, pickBestM best res = some r → P r := by
  intro r h
  unfold pickBestM at h
  rcases res with _ | r1 <;> rcases best with _ | r2
  · cases h
  · cases h; exact hb _ rfl
  · cases h; exact hr _ rfl
  · simp only at h
    split at h
    · cases h; exact hr _ rfl
    · cases h; exact hb _ rfl

theorem cacheAndPruneM_invariant (c : Catalog) (avail : List String) (k : Nat)
    (states : MultiStates) (seq : List String) (ctx : MultiSearchCtx)
    (core : List Char → Option MultiSubstanceOptimizationResult × MultiSearchCtx)
    (P : MultiSubstanceOptimizationResult → Prop) (hctx : ctxPM P ctx)
    (hcore : (∀ r, (core (getMultiSubstanceStateKey states)).1 = some r → P r) ∧
      ctxPM P (core (getMultiSubstanceStateKey states)).2) :
    (∀ r, (cacheAndPruneM c avail k states seq ctx core).1 = some r → P r) ∧
    ctxPM P (cacheAndPruneM c avail k states seq ctx core).2 := by
  unfold cacheAndPruneM
  cases hget : mapGet? ctx.cache (getMultiSubstanceStateKey states) with
  | some e =>
    by_cases hsteps : e.stepsUsed ≤ seq.length
    · simp only [hget, if_pos hsteps]
      exact ⟨(fun r hr => by cases hr; exact hctx.1 _ (mapGet?_mem hget)), hctx⟩
    · simp only [hget, if_neg hsteps]
      cases hgb : ctx.globalBest with
      | some gb =>
        by_cases hest : estimateMaxCombinedProfit c states k avail ≤ gb.totalProfit
        · simp only [hgb, if_pos hest]
          exact ⟨(fun r hr => by cases hr), hctx⟩
        · simp only [hgb, if_neg hest]
          exact hcore
      | none =>
        simp only [hgb]
        exact hcore
  | none =>
    simp only [hget]
    cases hgb : ctx.globalBest with
    | some gb =>
      by_cases hest : estimateMaxCombinedProfit c states k avail ≤ gb.totalProfit
      · simp only [hgb, if_pos hest]
        exact ⟨(fun r hr => by cases hr), hctx⟩
      · simp only [hgb, if_neg hest]
        exact hcore
    | none =>
      simp only [hgb]
      exact hcore

/-- Generic preservation through the multi-target search. -/
theorem msearch_invariant (c : Catalog) (budget minAdd : Option ℚ)
    (avail : List String) (P : MultiSubstanceOptimizationResult → Prop)
    (Pre : MultiStates → List String → Nat → Prop)
    (hLeaf : ∀ states seq, Pre states seq 0 → P (createMultiResult states seq))
    (hStep : ∀ states seq k ing ns, Pre states seq (k + 1) →
      ¬ (qTruthy budget = true ∧
        (budget.getD 0) < getTotalCost states + getIngredientCost c ing) →
      applyIngredientToAll c states ing = some ns →
      Pre ns (seq ++ [ing]) k) :
    ∀ (k : Nat) (states : MultiStates) (seq : List String)
      (ctx : MultiSearchCtx), Pre states seq k → ctxPM P ctx →
      (∀ r, (msearch c budget minAdd avail k states seq ctx).1 = some r → P r) ∧
      ctxPM P (msearch c budget minAdd avail k states seq ctx).2 := by
  intro k
  induction k with
  | zero =>
    intro states seq ctx hpre hctx
    simp only [msearch]
    refine cacheAndPruneM_invariant c avail 0 states seq ctx _ P hctx ?_
    dsimp only
    split
    · exact ⟨(fun r hr => by cases hr), hctx⟩
    · have hP : P (createMultiResult states seq) := hLeaf states seq hpre
      refine ⟨(fun r hr => ?_), ?_⟩
      · cases hr
        exact hP
      · exact ctxPM_setCache (ctxPM_updateGlobalBestM hctx hP) hP
  | succ k ih =>
    intro states seq ctx hpre hctx
    have hloop : ∀ (lst : List String)
        (best : Option MultiSubstanceOptimizationResult)
        (ctx' : MultiSearchCtx), (∀ r, best = some r → P r) → ctxPM P ctx' →
        (∀ r, (searchLoopM c budget
          (msearch c budget minAdd avail k) states seq lst best ctx').1
            = some r → P r) ∧
        ctxPM P (searchLoopM c budget
          (msearch c budget minAdd avail k) states seq lst best ctx').2 := by
      intro lst
      induction lst with
      | nil =>
        intro best ctx' hb hc
        exact ⟨hb, hc⟩
      | cons ing rest ihl =>
        intro best ctx' hb hc
        show (∀ r, (searchLoopM _ _ _ _ _ (ing :: rest) _ _).1 = some r → P r) ∧ _
        unfold searchLoopM
        split
        · exact ihl best ctx' hb hc
        · rename_i hbp
          cases happ : applyIngredientToAll c states ing with
          | none =>
            simp only [happ]
            exact ihl best ctx' hb hc
          | some ns =>
            simp only [happ]
            have hpre' : Pre ns (seq ++ [ing]) k :=
              hStep states seq k ing ns hpre (by simpa using hbp) happ
            have hrec := ih ns (seq ++ [ing]) ctx' hpre' hc
            exact ihl _ _ (pickBestM_spec hb hrec.1) hrec.2
    simp only [msearch]
    refine cacheAndPruneM_invariant c avail (k + 1) states seq ctx _ P hctx ?_
    dsimp only
    have hl := hloop avail none ctx (fun r hr => by cases hr) hctx
    cases hbest : (searchLoopM c budget (msearch c budget minAdd avail k)
        states seq avail none ctx).1 with
    | none =>
      simp only [hbest]
      exact ⟨(fun r hr => by cases hr), hl.2⟩
    | some best =>
      simp only [hbest]
      have hPbest : P best := hl.1 best hbest
      refine ⟨(fun r hr => ?_), ?_⟩
      · cases hr
        exact hPbest
      · exact ctxPM_updateGlobalBestM (ctxPM_setCache hl.2 hPbest) hPbest

/-! ## C10: all-or-nothing sequence length -/

/-- C10.  For `maxSteps = n ≥ 1`, the single-target `findOptimalMix` returns
either a sequence of length exactly `n` (results are only materialized when
`stepsRemaining` hits zero) or the empty base-state fallback. -/
theorem all_or_nothing_length (c : Catalog) (options : OptimizationOptions)
    (r : OptimizationResult) (h1 : 1 ≤ options.maxSteps)
    (h2 : findOptimalMix c options = .ok r) :
    r.sequence.length = options.maxSteps ∨ r.sequence.length = 0 := by
  obtain ⟨base, ms, ai, te, bl, mal⟩ := options
  unfold findOptimalMix at h2
  dsimp only at h1 h2 ⊢
  cases hcis : createInitialState c base with
  | none =>
    rw [hcis] at h2
    exact absurd h2 (by simp)
  | some st0 =>
    rw [hcis] at h2
    dsimp only at h2
    cases ms with
    | zero => omega
    | succ n =>
      rw [if_neg (by omega : ¬ (n + 1 = 0))] at h2
      have hsi := search_invariant c bl mal (ai.getD (getAllIngredients c))
        (fun res => res.sequence.length = n + 1)
        (fun st seq k => seq.length + k = n + 1)
        (fun st seq hpre => by
          show seq.length = n + 1
          omega)
        (fun st seq k ing st' hpre _ _ => by
          simp only [List.length_append, List.length_singleton]
          omega)
        (n + 1) st0 [] ⟨[], none⟩ (by simp)
        ⟨fun p hp => absurd hp (List.not_mem_nil p), fun res hres => by cases hres⟩
      cases hres : (search c bl mal (ai.getD (getAllIngredients c)) (n + 1)
          st0 [] ⟨[], none⟩).1 with
      | some r' =>
        rw [hres] at h2
        simp only [Option.getD_some, Except.ok.injEq] at h2
        subst h2
        exact Or.inl (hsi.1 r' hres)
      | none =>
        rw [hres] at h2
        simp only [Option.getD_none, Except.ok.injEq] at h2
        subst h2
        exact Or.inr rfl

/-- C10 witness at a concrete call. -/
theorem all_or_nothing_length_witness :
    ((findOptimalMix schedule1
      { baseSubstance := "OG Kush", maxSteps := 1,
        availableIngredients := some ["Cuke", "Banana"] }).toOption.get
        (by decide)).sequence.length = 1 ∨
    ((findOptimalMix schedule1
      { baseSubstance := "OG Kush", maxSteps := 1,
        availableIngredients := some ["Cuke", "Banana"] }).toOption.get
        (by decide)).sequence.length = 0 :=
  all_or_nothing_length schedule1
    { baseSubstance := "OG Kush", maxSteps := 1,
      availableIngredients := some ["Cuke", "Banana"] }
    ((findOptimalMix schedule1
      { baseSubstance := "OG Kush", maxSteps := 1,
        availableIngredients := some ["Cuke", "Banana"] }).toOption.get
        (by decide))
    (by decide) (by rfl)

/-! ## C2: budget respect -/

/-- C2 counterexample: a zero budget is JS-falsy, so the budget check is
skipped entirely and the returned mix costs 2 > 0. -/
theorem budget_zero_ignored :
    (findOptimalMix schedule1
      { baseSubstance := "OG Kush", maxSteps := 1,
        availableIngredients := some ["Cuke"],
        budgetLimit := some 0 }).toOption.map OptimizationResult.totalCost
      = some 2 ∧ ¬ ((2 : ℚ) ≤ 0) :=
  ⟨by decide, by decide⟩

theorem getIngredientCost_eq {c : Catalog} {ing : String} {i : Ingredient}
    (h : getIngredient c ing = some i) : getIngredientCost c ing = i.cost := by
  unfold getIngredientCost
  rw [h]
  rfl

theorem applyIngredientToAll_getTotalCost {c : Catalog} {states : MultiStates}
    {ing : String} {ns : MultiStates}
    (h : applyIngredientToAll c states ing = some ns) :
    (states = [] ∧ ns = []) ∨
    ∃ i, getIngredient c ing = some i ∧
      getTotalCost ns = getTotalCost states + i.cost := by
  cases states with
  | nil =>
    left
    refine ⟨rfl, ?_⟩
    have h' : some ([] : MultiStates) = some ns := h
    cases h'
    rfl
  | cons p rest =>
    right
    unfold applyIngredientToAll at h
    rw [List.mapM_cons] at h
    cases happ : applyIngredient c p.2 ing with
    | none =>
      rw [happ] at h
      simp at h
    | some st' =>
      rw [happ] at h
      obtain ⟨i, s, hI, hS, hst'⟩ := applyIngredient_eq_some happ
      cases hrest : rest.mapM (fun q =>
          (applyIngredient c q.2 ing).map (fun st => (q.1, st))) with
      | none =>
        rw [hrest] at h
        simp at h
      | some tl =>
        rw [hrest] at h
        have h' : some (((p.1, st') :: tl : MultiStates)) = some ns := h
        cases h'
        refine ⟨i, hI, ?_⟩
        show st'.totalCost = p.2.totalCost + i.cost
        rw [hst']

/-- C2 amended.  With a set and strictly positive (JS-truthy) budget limit,
every result either optimizer returns costs at most the budget; a budget of
exactly 0 is falsy in the source and disables the check (see the
counterexample). -/
theorem budget_respected :
    (∀ (c : Catalog) (options : OptimizationOptions) (b : ℚ)
      (r : OptimizationResult), options.budgetLimit = some b → 0 < b →
      findOptimalMix c options = .ok r → r.totalCost ≤ b) ∧
    (∀ (c : Catalog) (options : MultiSubstanceOptimizationOptions) (b : ℚ)
      (m : MultiSubstanceOptimizationResult),
      options.budgetLimit = some b → 0 < b →
      multiFindOptimalMix c options = .ok m → m.totalCost ≤ b) := by
  constructor
  · intro c options b r hbl hb h2
    obtain ⟨base, ms, ai, te, bl, mal⟩ := options
    dsimp only at hbl h2 ⊢
    subst hbl
    unfold findOptimalMix at h2
    dsimp only at h2
    cases hcis : createInitialState c base with
    | none =>
      rw [hcis] at h2
      exact absurd h2 (by simp)
    | some st0 =>
      rw [hcis] at h2
      dsimp only at h2
      obtain ⟨s, hs, _, _, _, hc0⟩ := createInitialState_eq_some hcis
      cases ms with
      | zero =>
        simp only [if_true, Except.ok.injEq] at h2
        rw [← h2]
        show st0.totalCost ≤ b
        rw [hc0]
        exact le_of_lt hb
      | succ n =>
        rw [if_neg (by omega : ¬ (n + 1 = 0))] at h2
        have hsi := search_invariant c (some b) mal
          (ai.getD (getAllIngredients c))
          (fun res => res.totalCost ≤ b)
          (fun st seq k => st.totalCost ≤ b)
          (fun st seq hpre => hpre)
          (fun st seq k ing st' hpre hbp happ => by
            obtain ⟨i, s', hI, hS, hst'⟩ := applyIngredient_eq_some happ
            rw [hst']
            show st.totalCost + i.cost ≤ b
            rw [not_and] at hbp
            have hq : qTruthy (some b) = true := by
              simp [qTruthy]
              exact ne_of_gt hb
            have := hbp hq
            rw [getIngredientCost_eq hI] at this
            simp only [Option.getD_some] at this
            linarith [not_lt.mp this])
          (n + 1) st0 [] ⟨[], none⟩
          (by show st0.totalCost ≤ b; rw [hc0]; exact le_of_lt hb)
          ⟨fun p hp => absurd hp (List.not_mem_nil p), fun res hres => by cases hres⟩
        cases hres : (search c (some b) mal (ai.getD (getAllIngredients c))
            (n + 1) st0 [] ⟨[], none⟩).1 with
        | some r' =>
          rw [hres] at h2
          simp only [Option.getD_some, Except.ok.injEq] at h2
          subst h2
          exact hsi.1 r' hres
        | none =>
          rw [hres] at h2
          simp only [Option.getD_none, Except.ok.injEq] at h2
          subst h2
          show st0.totalCost ≤ b
          rw [hc0]
          exact le_of_lt hb
  · intro c options b m hbl hb h2
    obtain ⟨bs, ms, ai, bl, mal⟩ := options
    dsimp only at hbl h2 ⊢
    subst hbl
    unfold multiFindOptimalMix at h2
    dsimp only at h2
    split at h2
    · exact absurd h2 (by simp)
    · rename_i hne
      cases hfold : (bs.foldlM
          (fun (mm : MultiStates) n =>
            match createInitialState c n with
            | none => Except.error ("Substance not found: " ++ n)
            | some st => Except.ok (mapSet mm n st))
          ([] : MultiStates) : Except String MultiStates) with
      | error e =>
        rw [hfold] at h2
        exact absurd h2 (by simp)
      | ok init =>
        rw [hfold] at h2
        dsimp only at h2
        have hzero : ∀ p ∈ init, p.2.totalCost = 0 := by
          have : ∀ (l : List String) (m0 m1 : MultiStates),
              (∀ p ∈ m0, p.2.totalCost = 0) →
              (l.foldlM
                (fun (mm : MultiStates) n =>
                  match createInitialState c n with
                  | none => Except.error ("Substance not found: " ++ n)
                  | some st => Except.ok (mapSet mm n st))
                m0 : Except String MultiStates) = .ok m1 →
              ∀ p ∈ m1, p.2.totalCost = 0 := by
            intro l
            induction l with
            | nil =>
              intro m0 m1 h0 hf
              have hf2 : (Except.ok m0 : Except String MultiStates)
                  = Except.ok m1 := hf
              cases hf2
              exact h0
            | cons x xs ih =>
              intro m0 m1 h0 hf
              rw [List.foldlM_cons] at hf
              cases hcx : createInitialState c x with
              | none =>
                rw [hcx] at hf
                have hf2 : (Except.error ("Substance not found: " ++ x) :
                    Except String MultiStates) = Except.ok m1 := hf
                exact Except.noConfusion hf2
              | some stx =>
                rw [hcx] at hf
                have hf2 : (List.foldlM
                    (fun (mm : MultiStates) n =>
                      match createInitialState c n with
                      | none => Except.error ("Substance not found: " ++ n)
                      | some st => Except.ok (mapSet mm n st))
                    (mapSet m0 x stx) xs : Except String MultiStates)
                    = Except.ok m1 := hf
                obtain ⟨_, _, _, _, _, hc0x⟩ := createInitialState_eq_some hcx
                refine ih (mapSet m0 x stx) m1 ?_ hf2
                intro p hp
                rcases mem_mapSet hp with hp | hp
                · rw [hp]
                  exact hc0x
                · exact h0 p hp
          exact this bs [] init (fun p hp => absurd hp (List.not_mem_nil p)) hfold
        have hg0 : getTotalCost init = 0 := by
          cases hinit : init with
          | nil => rfl
          | cons p rest =>
            show p.2.totalCost = 0
            exact hzero p (hinit ▸ List.mem_cons_self _ _)
        cases ms with
        | zero =>
          simp only [if_true, Except.ok.injEq] at h2
          rw [← h2]
          have hct : (createMultiResult init []).totalCost = 0 := rfl
          rw [hct]
          exact le_of_lt hb
        | succ n =>
          rw [if_neg (by omega : ¬ (n + 1 = 0))] at h2
          have hsi := msearch_invariant c (some b) mal
            (ai.getD (getAllIngredients c))
            (fun res => res.totalCost ≤ b)
            (fun states seq k => getTotalCost states ≤ b)
            (fun states seq hpre => by
              show (if 0 < seq.length then getTotalCost states else 0) ≤ b
              split
              · exact hpre
              · exact le_of_lt hb)
            (fun states seq k ing ns hpre hbp happ => by
              rcases applyIngredientToAll_getTotalCost happ with ⟨_, hns⟩ | ⟨i, hI, hns⟩
              · show getTotalCost ns ≤ b
                rw [hns]
                show (0 : ℚ) ≤ b
                exact le_of_lt hb
              · show getTotalCost ns ≤ b
                rw [hns]
                rw [not_and] at hbp
                have hq : qTruthy (some b) = true := by
                  simp [qTruthy]
                  exact ne_of_gt hb
                have := hbp hq
                rw [getIngredientCost_eq hI] at this
                simp only [Option.getD_some] at this
                linarith [not_lt.mp this])
            (n + 1) init [] ⟨[], none⟩
            (by show getTotalCost init ≤ b; rw [hg0]; exact le_of_lt hb)
            ⟨fun p hp => absurd hp (List.not_mem_nil p),
              fun res hres => by cases hres⟩
          cases hres : (msearch c (some b) mal (ai.getD (getAllIngredients c))
              (n + 1) init [] ⟨[], none⟩).1 with
          | some m' =>
            rw [hres] at h2
            simp only [Option.getD_some, Except.ok.injEq] at h2
            subst h2
            exact hsi.1 m' hres
          | none =>
            rw [hres] at h2
            simp only [Option.getD_none, Except.ok.injEq] at h2
            subst h2
            have hct : (createMultiResult init []).totalCost = 0 := rfl
            rw [hct]
            exact le_of_lt hb

/-- C2 witness: concrete budget-limited calls of both optimizers. -/
theorem budget_respected_witness :
    ((findOptimalMix schedule1
      { baseSubstance := "OG Kush", maxSteps := 1,
        availableIngredients := some ["Cuke", "Banana"],
        budgetLimit := some 3 }).toOption.get (by decide)).totalCost ≤ 3 ∧
    ((multiFindOptimalMix schedule1
      { baseSubstances := ["OG Kush"], maxSteps := 1,
        availableIngredients := some ["Cuke"],
        budgetLimit := some 3 }).toOption.get (by decide)).totalCost ≤ 3 :=
  ⟨budget_respected.1 schedule1
      { baseSubstance := "OG Kush", maxSteps := 1,
        availableIngredients := some ["Cuke", "Banana"],
        budgetLimit := some 3 } 3
      ((findOptimalMix schedule1
        { baseSubstance := "OG Kush", maxSteps := 1,
          availableIngredients := some ["Cuke", "Banana"],
          budgetLimit := some 3 }).toOption.get (by decide))
      rfl (by norm_num) (by rfl),
    budget_respected.2 schedule1
      { baseSubstances := ["OG Kush"], maxSteps := 1,
        availableIngredients := some ["Cuke"],
        budgetLimit := some 3 } 3
      ((multiFindOptimalMix schedule1
        { baseSubstances := ["OG Kush"], maxSteps := 1,
          availableIngredients := some ["Cuke"],
          budgetLimit := some 3 }).toOption.get (by decide))
      rfl (by norm_num) (by rfl)⟩

/-! ## C6: the zero-step edge case -/

theorem mapSet_append {κ α : Type} [DecidableEq κ] {m : List (κ × α)} {k : κ}
    {v : α} (h : ∀ p ∈ m, p.1 ≠ k) : mapSet m k v = m ++ [(k, v)] := by
  induction m with
  | nil => rfl
  | cons q rest ih =>
    unfold mapSet
    rw [if_neg (h q (List.mem_cons_self _ _))]
    rw [ih (fun p hp => h p (List.mem_cons_of_mem _ hp))]
    rfl

theorem listRel_map {α β γ : Type} {R : α → β → Prop} {R' : α → γ → Prop}
    (f : β → γ) (h : ∀ a b, R a b → R' a (f b)) :
    ∀ {l1 : List α} {l2 : List β}, listRel R l1 l2 →
      listRel R' l1 (l2.map f) := by
  intro l1
  induction l1 with
  | nil =>
    intro l2 hrel
    cases l2 with
    | nil => trivial
    | cons b bs => exact absurd hrel (by simp [listRel])
  | cons a as ih =>
    intro l2 hrel
    cases l2 with
    | nil => exact absurd hrel (by simp [listRel])
    | cons b bs => exact ⟨h a b hrel.1, ih hrel.2⟩

/-- The initial-states construction of the multi-target optimizer on a
duplicate-free list of known substances appends one freshly created state
per substance, in order. -/
theorem initial_fold (c : Catalog) :
    ∀ (l : List String) (m0 : MultiStates), l.Nodup →
    (∀ n ∈ l, (createInitialState c n).isSome) →
    (∀ p ∈ m0, ∀ n ∈ l, p.1 ≠ n) →
    ∃ pairs, (l.foldlM
      (fun (mm : MultiStates) n =>
        match createInitialState c n with
        | none => Except.error ("Substance not found: " ++ n)
        | some st => Except.ok (mapSet mm n st))
      m0 : Except String MultiStates) = .ok (m0 ++ pairs) ∧
      listRel (fun n (p : String × MixState) =>
        p.1 = n ∧ createInitialState c n = some p.2) l pairs := by
  intro l
  induction l with
  | nil =>
    intro m0 _ _ _
    exact ⟨[], by rw [List.append_nil]; rfl, trivial⟩
  | cons x xs ih =>
    intro m0 hnd hkn hdisj
    have hx := hkn x (List.mem_cons_self _ _)
    rw [Option.isSome_iff_exists] at hx
    obtain ⟨st, hst⟩ := hx
    obtain ⟨pairs, hfold, hrel⟩ := ih (mapSet m0 x st)
      (List.nodup_cons.mp hnd).2
      (fun n hn => hkn n (List.mem_cons_of_mem _ hn))
      (by
        intro p hp n hn
        rcases mem_mapSet hp with hp | hp
        · rw [hp]
          show x ≠ n
          intro hxn
          exact (List.nodup_cons.mp hnd).1 (hxn ▸ hn)
        · exact hdisj p hp n (List.mem_cons_of_mem _ hn))
    refine ⟨(x, st) :: pairs, ?_, ⟨rfl, hst⟩, hrel⟩
    rw [List.foldlM_cons, hst]
    have heq : ((match some st with
        | none => Except.error ("Substance not found: " ++ x)
        | some st => Except.ok (mapSet m0 x st)) >>= fun mm =>
          (xs.foldlM
            (fun (mm : MultiStates) n =>
              match createInitialState c n with
              | none => Except.error ("Substance not found: " ++ n)
              | some st => Except.ok (mapSet mm n st))
            mm : Except String MultiStates))
        = (xs.foldlM
            (fun (mm : MultiStates) n =>
              match createInitialState c n with
              | none => Except.error ("Substance not found: " ++ n)
              | some st => Except.ok (mapSet mm n st))
            (mapSet m0 x st) : Except String MultiStates) := rfl
    rw [heq, hfold,
      mapSet_append (fun p hp => hdisj p hp x (List.mem_cons_self _ _)),
      List.append_assoc, List.singleton_append]

/-- C6.  With `maxSteps = 0` the single-target optimizer returns the base
state immediately: empty sequence, zero cost, and exactly the substance's
initial effects; the multi-target optimizer likewise returns one sub-result
per (distinct) requested substance, each at its freshly created initial
state, with zero shared cost. -/
theorem zero_steps_result :
    (∀ sub s, getSubstance schedule1 sub = some s →
      ∃ r, findOptimalMix schedule1
          { baseSubstance := sub, maxSteps := 0 } = .ok r ∧
        r.sequence = [] ∧ r.totalCost = 0 ∧
        r.finalEffects = s.initialEffects) ∧
    (∀ subs : List String, subs ≠ [] → subs.Nodup →
      (∀ n ∈ subs, (getSubstance schedule1 n).isSome) →
      ∃ m, multiFindOptimalMix schedule1
          { baseSubstances := subs, maxSteps := 0 } = .ok m ∧
        m.sequence = [] ∧ m.totalCost = 0 ∧
        listRel (fun n sr => sr.substance = n ∧
          createInitialState schedule1 n = some sr.mixState ∧
          sr.finalEffects = sr.mixState.effects ∧
          sr.sellPrice = sr.mixState.currentValue) subs m.substanceResults) := by
  constructor
  · intro sub s hs
    have hsome : (createInitialState schedule1 sub).isSome := by
      unfold createInitialState
      rw [hs]
      rfl
    rw [Option.isSome_iff_exists] at hsome
    obtain ⟨st0, hcis⟩ := hsome
    obtain ⟨s', hs', _, heff, _, hc0⟩ := createInitialState_eq_some hcis
    rw [hs] at hs'
    cases hs'
    refine ⟨createResult st0 [], ?_, rfl, ?_, ?_⟩
    · unfold findOptimalMix
      dsimp only
      rw [hcis]
      rfl
    · show st0.totalCost = 0
      exact hc0
    · show st0.effects = s.initialEffects
      rw [heff]
      have hmem : s ∈ SUBSTANCES := List.mem_of_find?_eq_some hs
      have hall : ∀ s ∈ SUBSTANCES, listToSet s.initialEffects
          = s.initialEffects := by decide
      exact hall s hmem
  · intro subs hne hnodup hknown
    have hknown' : ∀ n ∈ subs, (createInitialState schedule1 n).isSome := by
      intro n hn
      have := hknown n hn
      rw [Option.isSome_iff_exists] at this
      obtain ⟨s, hs⟩ := this
      unfold createInitialState
      rw [hs]
      rfl
    obtain ⟨pairs, hfold, hrel⟩ := initial_fold schedule1 subs [] hnodup
      hknown' (fun p hp => absurd hp (List.not_mem_nil p))
    refine ⟨createMultiResult pairs [], ?_, rfl, rfl, ?_⟩
    · unfold multiFindOptimalMix
      rw [if_neg (by simpa using hne)]
      dsimp only
      rw [hfold]
      rw [List.nil_append]
      rfl
    · refine listRel_map _ ?_ hrel
      rintro n p ⟨hp1, hp2⟩
      exact ⟨hp1, hp2, rfl, rfl⟩

/-- C6 witness: a concrete substance and a concrete two-substance list. -/
theorem zero_steps_result_witness :
    (∃ r, findOptimalMix schedule1
        { baseSubstance := "OG Kush", maxSteps := 0 } = .ok r ∧
      r.sequence = [] ∧ r.totalCost = 0 ∧
      r.finalEffects = (⟨"OG Kush", 35, ["Calming"], "weed"⟩ :
        Substance).initialEffects) ∧
    (∃ m, multiFindOptimalMix schedule1
        { baseSubstances := ["OG Kush", "Meth"], maxSteps := 0 } = .ok m ∧
      m.sequence = [] ∧ m.totalCost = 0 ∧
      listRel (fun n sr => sr.substance = n ∧
        createInitialState schedule1 n = some sr.mixState ∧
        sr.finalEffects = sr.mixState.effects ∧
        sr.sellPrice = sr.mixState.currentValue) ["OG Kush", "Meth"]
        m.substanceResults) :=
  ⟨zero_steps_result.1 "OG Kush" ⟨"OG Kush", 35, ["Calming"], "weed"⟩ rfl,
    zero_steps_result.2 ["OG Kush", "Meth"] (by decide) (by decide)
      (by decide)⟩

/-! ## C4: infrastructure — injectivity of the cache keys

The single-target key joins the sorted effect names with `|`; the multi
key wraps them as `name:` plus a comma join.  For effect names that are
nonempty and separator-free (all catalog-reachable names), equality of
either key is equivalent to equality of the sorted name lists, so the two
optimizers' caches classify states identically. -/

theorem prefix_sep_inj (sep : Char) :
    ∀ (l1 : List Char) (l2 a1 a2 : List Char), sep ∉ l1 → sep ∉ l2 →
    (a1 = [] ∨ ∃ t, a1 = sep :: t) → (a2 = [] ∨ ∃ t, a2 = sep :: t) →
    l1 ++ a1 = l2 ++ a2 → l1 = l2 ∧ a1 = a2 := by
  intro l1
  induction l1 with
  | nil =>
    intro l2 a1 a2 hs1 hs2 ha1 ha2 h
    cases l2 with
    | nil => exact ⟨rfl, h⟩
    | cons c l2' =>
      simp only [List.nil_append, List.cons_append] at h
      rcases ha1 with rfl | ⟨t, rfl⟩
      · cases h
      · cases h
        exact absurd (List.mem_cons_self sep l2') hs2
  | cons c l1' ih =>
    intro l2 a1 a2 hs1 hs2 ha1 ha2 h
    cases l2 with
    | nil =>
      simp only [List.cons_append, List.nil_append] at h
      rcases ha2 with rfl | ⟨t, rfl⟩
      · cases h
      · cases h
        exact absurd (List.mem_cons_self sep l1') hs1
    | cons d l2' =>
      simp only [List.cons_append, List.cons.injEq] at h
      obtain ⟨rfl, h⟩ := h
      obtain ⟨h1, h2⟩ := ih l2' a1 a2 (fun hm => hs1 (List.mem_cons_of_mem _ hm))
        (fun hm => hs2 (List.mem_cons_of_mem _ hm)) ha1 ha2 h
      exact ⟨by rw [h1], h2⟩

theorem joinChars_cons_ne_nil {sep : Char} {y : List Char} {ys : List (List Char)}
    (hy : y ≠ []) : joinChars sep (y :: ys) ≠ [] := by
  cases ys with
  | nil => exact hy
  | cons z zs =>
    show y ++ sep :: joinChars sep (z :: zs) ≠ []
    simp

theorem joinChars_inj (sep : Char) :
    ∀ (xs : List (List Char)) (ys : List (List Char)),
    (∀ l ∈ xs, l ≠ [] ∧ sep ∉ l) → (∀ l ∈ ys, l ≠ [] ∧ sep ∉ l) →
    joinChars sep xs = joinChars sep ys → xs = ys := by
  intro xs
  induction xs with
  | nil =>
    intro ys hxs hys h
    cases ys with
    | nil => rfl
    | cons y ys' =>
      exact absurd h.symm
        (joinChars_cons_ne_nil (hys y (List.mem_cons_self _ _)).1)
  | cons x xs' ih =>
    intro ys hxs hys h
    cases ys with
    | nil =>
      exact absurd h
        (joinChars_cons_ne_nil (hxs x (List.mem_cons_self _ _)).1)
    | cons y ys' =>
      have hx := hxs x (List.mem_cons_self _ _)
      have hy := hys y (List.mem_cons_self _ _)
      have hsplit : x ++ (match xs' with
            | [] => ([] : List Char)
            | z :: zs => sep :: joinChars sep (z :: zs))
          = y ++ (match ys' with
            | [] => ([] : List Char)
            | z :: zs => sep :: joinChars sep (z :: zs)) := by
        cases xs' with
        | nil =>
          cases ys' with
          | nil => simpa [joinChars] using h
          | cons z zs => simpa [joinChars] using h
        | cons z zs =>
          cases ys' with
          | nil => simpa [joinChars] using h
          | cons w ws => simpa [joinChars] using h
      obtain ⟨h1, h2⟩ := prefix_sep_inj sep x y _ _ hx.2 hy.2
        (by
          cases xs' with
          | nil => exact Or.inl rfl
          | cons z zs => exact Or.inr ⟨_, rfl⟩)
        (by
          cases ys' with
          | nil => exact Or.inl rfl
          | cons z zs => exact Or.inr ⟨_, rfl⟩)
        hsplit
      subst h1
      cases xs' with
      | nil =>
        cases ys' with
        | nil => rfl
        | cons z zs => cases h2
      | cons z zs =>
        cases ys' with
        | nil => cases h2
        | cons w ws =>
          simp only [List.cons.injEq, true_and] at h2
          rw [ih (w :: ws) (fun l hl => hxs l (List.mem_cons_of_mem _ hl))
            (fun l hl => hys l (List.mem_cons_of_mem _ hl)) h2]

theorem string_data_inj {a b : String} (h : a.data = b.data) : a = b := by
  cases a
  cases b
  exact congrArg String.mk h

theorem map_data_inj : ∀ {xs ys : List String},
    xs.map String.data = ys.map String.data → xs = ys := by
  intro xs
  induction xs with
  | nil =>
    intro ys h
    cases ys with
    | nil => rfl
    | cons y ys' => cases h
  | cons x xs' ih =>
    intro ys h
    cases ys with
    | nil => cases h
    | cons y ys' =>
      simp only [List.map_cons, List.cons.injEq] at h
      rw [string_data_inj h.1, ih h.2]

theorem mem_insertSorted {α : Type} {le : α → α → Bool} {x y : α} :
    ∀ {l : List α}, y ∈ insertSorted le x l → y = x ∨ y ∈ l := by
  intro l
  induction l with
  | nil =>
    intro h
    simpa [insertSorted] using h
  | cons z zs ih =>
    unfold insertSorted
    split
    · intro h
      rcases List.mem_cons.mp h with h | h
      · exact Or.inl h
      · exact Or.inr h
    · intro h
      rcases List.mem_cons.mp h with h | h
      · exact Or.inr (h ▸ List.mem_cons_self _ _)
      · rcases ih h with h | h
        · exact Or.inl h
        · exact Or.inr (List.mem_cons_of_mem _ h)

theorem mem_sortBy {α : Type} {le : α → α → Bool} {y : α} :
    ∀ {l : List α}, y ∈ sortBy le l → y ∈ l := by
  intro l
  induction l with
  | nil => simp [sortBy]
  | cons z zs ih =>
    unfold sortBy
    intro h
    rcases mem_insertSorted h with h | h
    · exact h ▸ List.mem_cons_self _ _
    · exact List.mem_cons_of_mem _ (ih h)

theorem goodE_sorted_names {E : List String} (h : goodE E) (sep : Char)
    (hsep : sep = '|' ∨ sep = ',') :
    ∀ l ∈ (sortStrings E).map String.data, l ≠ [] ∧ sep ∉ l := by
  intro l hl
  rw [List.mem_map] at hl
  obtain ⟨e, he, rfl⟩ := hl
  have hg := h e (mem_sortBy he)
  rcases hsep with rfl | rfl
  · exact ⟨hg.1, hg.2.1⟩
  · exact ⟨hg.1, hg.2.2⟩

theorem getStateKey_inj_iff {E E' : List String} (h : goodE E)
    (h' : goodE E') :
    (getStateKey E = getStateKey E') ↔ sortStrings E = sortStrings E' := by
  constructor
  · intro heq
    have := joinChars_inj '|' _ _ (goodE_sorted_names h '|' (Or.inl rfl))
      (goodE_sorted_names h' '|' (Or.inl rfl)) heq
    exact map_data_inj this
  · intro heq
    unfold getStateKey
    rw [heq]

theorem mkeySingle_inj_iff {name : String} {E E' : List String}
    (h : goodE E) (h' : goodE E') :
    (mkeySingle name E = mkeySingle name E') ↔
      sortStrings E = sortStrings E' := by
  constructor
  · intro heq
    unfold mkeySingle at heq
    have heq2 := List.append_cancel_left heq
    simp only [List.cons.injEq, true_and] at heq2
    have := joinChars_inj ',' _ _ (goodE_sorted_names h ',' (Or.inr rfl))
      (goodE_sorted_names h' ',' (Or.inr rfl)) heq2
    exact map_data_inj this
  · intro heq
    unfold mkeySingle
    rw [heq]

theorem multiKey_singleton (name : String) (st : MixState) :
    getMultiSubstanceStateKey [(name, st)] = mkeySingle name st.effects := rfl

/-! ## C4: infrastructure — goodness of reachable effect names -/

theorem mem_applyRules {rules : List TransformationRule} {E : List String}
    {e : String} :
    e ∈ applyRules rules E → e ∈ E ∨ ∃ r ∈ rules, e = r.replacement := by
  induction rules generalizing E with
  | nil => intro h; exact Or.inl h
  | cons r rs ih =>
    unfold applyRules
    simp only [List.foldl_cons]
    intro h
    rcases ih h with h | h
    · split at h
      · rcases mem_setAdd h with h | h
        · exact Or.inl (mem_setDelete h)
        · exact Or.inr ⟨r, List.mem_cons_self _ _, h⟩
      · exact Or.inl h
    · obtain ⟨r', hr', he⟩ := h
      exact Or.inr ⟨r', List.mem_cons_of_mem _ hr', he⟩

theorem goodE_applyIngredient {c : Catalog} {st st' : MixState} {n : String}
    (hc : GoodCatalog c) (hE : goodE st.effects)
    (h : applyIngredient c st n = some st') : goodE st'.effects := by
  obtain ⟨i, s, hI, hS, rfl⟩ := applyIngredient_eq_some h
  have hi : i ∈ c.ingredients := List.mem_of_find?_eq_some hI
  have hgi := hc.1 i hi
  intro e he
  show goodName e
  unfold addDefaultEffect at he
  have hrules : e ∈ applyRules i.transformationRules st.effects → goodName e := by
    intro h2
    rcases mem_applyRules h2 with h2 | ⟨r, hr, rfl⟩
    · exact hE e h2
    · exact hgi.2 r hr
  split at he
  · rcases List.mem_append.mp he with he | he
    · exact hrules he
    · rw [List.mem_singleton.mp he]
      exact hgi.1
  · exact hrules he

theorem goodE_createInitialState {c : Catalog} {n : String} {st : MixState}
    (hc : GoodCatalog c) (h : createInitialState c n = some st) :
    goodE st.effects := by
  obtain ⟨s, hs, _, heff, _, _⟩ := createInitialState_eq_some h
  have hmem : s ∈ c.substances := List.mem_of_find?_eq_some hs
  intro e he
  rw [heff] at he
  exact hc.2 s hmem e (mem_listToSet he)

theorem applyIngredient_baseSubstance {c : Catalog} {st st' : MixState}
    {n : String} (h : applyIngredient c st n = some st') :
    st'.baseSubstance = st.baseSubstance := by
  obtain ⟨i, s, _, _, rfl⟩ := applyIngredient_eq_some h
  rfl

/-! ## C4: infrastructure — pointwise correspondence of the two searches -/

theorem getTotalCost_singleton (name : String) (st : MixState) :
    getTotalCost [(name, st)] = st.totalCost := rfl

/-- The two pruning estimates agree on a one-substance map. -/
theorem estimate_singleton (c : Catalog) (st : MixState) (k : Nat)
    (avail : List String) (name : String) (hname : st.baseSubstance = name) :
    estimateMaxCombinedProfit c [(name, st)] k avail
      = estimateMaxProfit c st k avail := by
  subst hname
  unfold estimateMaxCombinedProfit estimateMaxProfit
  cases k with
  | zero =>
    rw [if_pos rfl, if_pos rfl]
    show (0 + st.currentValue) - st.totalCost = calculateProfit st
    unfold calculateProfit
    ring
  | succ n =>
    rw [if_neg (Nat.succ_ne_zero n), if_neg (Nat.succ_ne_zero n)]
    dsimp only [List.foldl_cons, List.foldl_nil]
    ring

/-- The two result constructors agree on a one-substance map, on the
observables the search compares and the claim asserts. -/
theorem createResult_rel {st : MixState} {seq : List String} (name : String)
    (h0 : seq = [] → st.totalCost = 0) :
    resultRel (createResult st seq) (createMultiResult [(name, st)] seq) := by
  refine ⟨rfl, ?_, ?_⟩
  · show (if 0 < seq.length then getTotalCost [(name, st)] else 0)
      = st.totalCost
    cases seq with
    | nil =>
      simp only [List.length_nil]
      rw [if_neg (lt_irrefl 0)]
      exact (h0 rfl).symm
    | cons a l =>
      rw [if_pos (by simp)]
      rfl
  · show (0 + st.currentValue) -
        (if 0 < seq.length then getTotalCost [(name, st)] else 0)
      = st.currentValue - st.totalCost
    cases seq with
    | nil =>
      simp only [List.length_nil]
      rw [if_neg (lt_irrefl 0), h0 rfl]
      ring
    | cons a l =>
      rw [if_pos (by simp), getTotalCost_singleton]
      ring

/-- Correspondence of cache lookups over entrywise-related caches. -/
theorem mapGet?_rel {name : String} {m1 : List (List Char × CacheEntry)}
    {m2 : List (List Char × MultiCacheEntry)} {E : List String}
    (hrel : listRel (entryRel name) m1 m2) (hE : goodE E) :
    optRel (fun (e1 : CacheEntry) (e2 : MultiCacheEntry) =>
        e1.stepsUsed = e2.stepsUsed ∧ resultRel e1.result e2.result)
      (mapGet? m1 (getStateKey E)) (mapGet? m2 (mkeySingle name E)) := by
  induction m1 generalizing m2 with
  | nil =>
    cases m2 with
    | nil => trivial
    | cons q qs => exact absurd hrel (by simp [listRel])
  | cons p ps ih =>
    cases m2 with
    | nil => exact absurd hrel (by simp [listRel])
    | cons q qs =>
      obtain ⟨⟨Ei, hEi, hk1, hk2⟩, hsteps, hres⟩ := hrel.1
      unfold mapGet?
      by_cases hs : sortStrings Ei = sortStrings E
      · rw [if_pos (hk1 ▸ (getStateKey_inj_iff hEi hE).mpr hs),
          if_pos (hk2 ▸ (mkeySingle_inj_iff hEi hE).mpr hs)]
        exact ⟨hsteps, hres⟩
      · rw [if_neg (fun hcontra =>
            hs ((getStateKey_inj_iff hEi hE).mp (hk1 ▸ hcontra))),
          if_neg (fun hcontra =>
            hs ((mkeySingle_inj_iff hEi hE).mp (hk2 ▸ hcontra)))]
        exact ih hrel.2

/-- Correspondence of cache updates over entrywise-related caches. -/
theorem mapSet_rel {name : String} {m1 : List (List Char × CacheEntry)}
    {m2 : List (List Char × MultiCacheEntry)} {E : List String}
    {e1 : CacheEntry} {e2 : MultiCacheEntry}
    (hrel : listRel (entryRel name) m1 m2) (hE : goodE E)
    (hsteps : e1.stepsUsed = e2.stepsUsed)
    (hres : resultRel e1.result e2.result) :
    listRel (entryRel name) (mapSet m1 (getStateKey E) e1)
      (mapSet m2 (mkeySingle name E) e2) := by
  induction m1 generalizing m2 with
  | nil =>
    cases m2 with
    | nil => exact ⟨⟨⟨E, hE, rfl, rfl⟩, hsteps, hres⟩, trivial⟩
    | cons q qs => exact absurd hrel (by simp [listRel])
  | cons p ps ih =>
    cases m2 with
    | nil => exact absurd hrel (by simp [listRel])
    | cons q qs =>
      obtain ⟨⟨Ei, hEi, hk1, hk2⟩, hsteps', hres'⟩ := hrel.1
      unfold mapSet
      by_cases hs : sortStrings Ei = sortStrings E
      · rw [if_pos (hk1 ▸ (getStateKey_inj_iff hEi hE).mpr hs),
          if_pos (hk2 ▸ (mkeySingle_inj_iff hEi hE).mpr hs)]
        exact ⟨⟨⟨E, hE, rfl, rfl⟩, hsteps, hres⟩, hrel.2⟩
      · rw [if_neg (fun hcontra =>
            hs ((getStateKey_inj_iff hEi hE).mp (hk1 ▸ hcontra))),
          if_neg (fun hcontra =>
            hs ((mkeySingle_inj_iff hEi hE).mp (hk2 ▸ hcontra)))]
        exact ⟨⟨⟨Ei, hEi, hk1, hk2⟩, hsteps', hres'⟩, ih hrel.2⟩

/-- Correspondence of the global-best updates. -/
theorem updateGlobalBest_rel {name : String} {ctx1 : SearchCtx}
    {ctx2 : MultiSearchCtx} {r : OptimizationResult}
    {m : MultiSubstanceOptimizationResult}
    (hrel : ctxRel name ctx1 ctx2) (hr : resultRel r m) :
    ctxRel name (updateGlobalBest ctx1 r) (updateGlobalBestM ctx2 m) := by
  obtain ⟨hcache, hgb⟩ := hrel
  cases h1 : ctx1.globalBest with
  | none =>
    cases h2 : ctx2.globalBest with
    | none =>
      rw [updateGlobalBest_none h1, updateGlobalBestM_none h2]
      exact ⟨hcache, hr⟩
    | some gb2 =>
      rw [h1, h2] at hgb
      exact absurd hgb (by simp [optRel])
  | some gb1 =>
    cases h2 : ctx2.globalBest with
    | none =>
      rw [h1, h2] at hgb
      exact absurd hgb (by simp [optRel])
    | some gb2 =>
      rw [h1, h2] at hgb
      rw [updateGlobalBest_some h1, updateGlobalBestM_some h2]
      have hcmp : (m.totalProfit > gb2.totalProfit) = (r.profit > gb1.profit) := by
        rw [hr.2.2, hgb.2.2]
      by_cases hgt : r.profit > gb1.profit
      · rw [if_pos hgt, if_pos (by rw [hcmp]; exact hgt)]
        exact ⟨hcache, hr⟩
      · rw [if_neg hgt, if_neg (by rw [hcmp]; exact hgt)]
        exact ⟨hcache, by rw [h1, h2]; exact hgb⟩

/-- Correspondence of the best-candidate updates. -/
theorem pickBest_rel {b1 r1 : Option OptimizationResult}
    {b2 r2 : Option MultiSubstanceOptimizationResult}
    (hb : optRel resultRel b1 b2) (hr : optRel resultRel r1 r2) :
    optRel resultRel (pickBest b1 r1) (pickBestM b2 r2) := by
  unfold pickBest pickBestM
  rcases r1 with _ | x1 <;> rcases r2 with _ | x2
  · exact hb
  · exact absurd hr (by simp [optRel])
  · exact absurd hr (by simp [optRel])
  · rcases b1 with _ | y1 <;> rcases b2 with _ | y2
    · exact hr
    · exact absurd hb (by simp [optRel])
    · exact absurd hb (by simp [optRel])
    · have hcmp : (x2.totalProfit > y2.totalProfit)
          = (x1.profit > y1.profit) := by
        rw [hr.2.2, hb.2.2]
      show optRel resultRel
        (if x1.profit > y1.profit then some x1 else some y1)
        (if x2.totalProfit > y2.totalProfit then some x2 else some y2)
      by_cases hgt : x1.profit > y1.profit
      · rw [if_pos hgt, if_pos (by rw [hcmp]; exact hgt)]
        exact hr
      · rw [if_neg hgt, if_neg (by rw [hcmp]; exact hgt)]
        exact hb

/-- Applying an ingredient to a one-substance map is applying it to the one
state. -/
theorem applyToAll_singleton (c : Catalog) (name : String) (st : MixState)
    (ing : String) :
    applyIngredientToAll c [(name, st)] ing
      = (applyIngredient c st ing).map (fun st' => [(name, st')]) := by
  unfold applyIngredientToAll
  rw [List.mapM_cons, List.mapM_nil]
  cases h : applyIngredient c st ing <;> rfl

/-! ## C4: the bisimulation of the two searches on one substance -/

/-- Correspondence of the two pruning tests (the part after a cache miss). -/
theorem prune_bisim (c : Catalog) (avail : List String) (k : Nat)
    (st : MixState) (name : String) (hname : st.baseSubstance = name)
    (ctx1 : SearchCtx) (ctx2 : MultiSearchCtx)
    (core1 : List Char → Option OptimizationResult × SearchCtx)
    (core2 : List Char → Option MultiSubstanceOptimizationResult × MultiSearchCtx)
    (hrel : ctxRel name ctx1 ctx2)
    (hcore : optRel resultRel (core1 (getStateKey st.effects)).1
        (core2 (mkeySingle name st.effects)).1 ∧
      ctxRel name (core1 (getStateKey st.effects)).2
        (core2 (mkeySingle name st.effects)).2) :
    optRel resultRel
      (match ctx1.globalBest with
        | some gb =>
          if estimateMaxProfit c st k avail ≤ gb.profit then (none, ctx1)
          else core1 (getStateKey st.effects)
        | none => core1 (getStateKey st.effects)).1
      (match ctx2.globalBest with
        | some gb =>
          if estimateMaxCombinedProfit c [(name, st)] k avail ≤ gb.totalProfit
          then (none, ctx2)
          else core2 (mkeySingle name st.effects)
        | none => core2 (mkeySingle name st.effects)).1 ∧
    ctxRel name
      (match ctx1.globalBest with
        | some gb =>
          if estimateMaxProfit c st k avail ≤ gb.profit then (none, ctx1)
          else core1 (getStateKey st.effects)
        | none => core1 (getStateKey st.effects)).2
      (match ctx2.globalBest with
        | some gb =>
          if estimateMaxCombinedProfit c [(name, st)] k avail ≤ gb.totalProfit
          then (none, ctx2)
          else core2 (mkeySingle name st.effects)
        | none => core2 (mkeySingle name st.effects)).2 := by
  have hgb := hrel.2
  cases hb1 : ctx1.globalBest with
  | none =>
    cases hb2 : ctx2.globalBest with
    | none => exact hcore
    | some gb2 =>
      rw [hb1, hb2] at hgb
      exact absurd hgb (by simp [optRel])
  | some gb1 =>
    cases hb2 : ctx2.globalBest with
    | none =>
      rw [hb1, hb2] at hgb
      exact absurd hgb (by simp [optRel])
    | some gb2 =>
      rw [hb1, hb2] at hgb
      rw [estimate_singleton c st k avail name hname]
      dsimp only
      have hpe : gb2.totalProfit = gb1.profit := hgb.2.2
      rw [hpe]
      by_cases hest : estimateMaxProfit c st k avail ≤ gb1.profit
      · rw [if_pos hest, if_pos hest]
        exact ⟨trivial, hrel⟩
      · rw [if_neg hest, if_neg hest]
        exact hcore

/-- Correspondence of the cache-probe-and-prune preludes. -/
theorem cacheAndPrune_bisim (c : Catalog) (avail : List String) (k : Nat)
    (st : MixState) (seq : List String) (ctx1 : SearchCtx)
    (ctx2 : MultiSearchCtx) (name : String)
    (core1 : List Char → Option OptimizationResult × SearchCtx)
    (core2 : List Char → Option MultiSubstanceOptimizationResult × MultiSearchCtx)
    (hgood : goodE st.effects) (hname : st.baseSubstance = name)
    (hrel : ctxRel name ctx1 ctx2)
    (hcore : optRel resultRel (core1 (getStateKey st.effects)).1
        (core2 (mkeySingle name st.effects)).1 ∧
      ctxRel name (core1 (getStateKey st.effects)).2
        (core2 (mkeySingle name st.effects)).2) :
    optRel resultRel (cacheAndPrune c avail k st seq ctx1 core1).1
      (cacheAndPruneM c avail k [(name, st)] seq ctx2 core2).1 ∧
    ctxRel name (cacheAndPrune c avail k st seq ctx1 core1).2
      (cacheAndPruneM c avail k [(name, st)] seq ctx2 core2).2 := by
  unfold cacheAndPrune cacheAndPruneM
  rw [multiKey_singleton]
  have hget := @mapGet?_rel name ctx1.cache ctx2.cache st.effects
    hrel.1 hgood
  cases hg1 : mapGet? ctx1.cache (getStateKey st.effects) with
  | none =>
    cases hg2 : mapGet? ctx2.cache (mkeySingle name st.effects) with
    | none =>
      simp only [hg1, hg2]
      exact prune_bisim c avail k st name hname ctx1 ctx2 core1 core2 hrel hcore
    | some e2 =>
      rw [hg1, hg2] at hget
      exact absurd hget (by simp [optRel])
  | some e1 =>
    cases hg2 : mapGet? ctx2.cache (mkeySingle name st.effects) with
    | none =>
      rw [hg1, hg2] at hget
      exact absurd hget (by simp [optRel])
    | some e2 =>
      rw [hg1, hg2] at hget
      obtain ⟨hsteps, hres⟩ := hget
      simp only [hg1, hg2]
      by_cases hle : e1.stepsUsed ≤ seq.length
      · rw [if_pos hle, if_pos (hsteps ▸ hle)]
        exact ⟨hres, hrel⟩
      · rw [if_neg hle, if_neg (hsteps ▸ hle)]
        exact prune_bisim c avail k st name hname ctx1 ctx2 core1 core2 hrel hcore

/-- The bisimulation: on a one-substance map with the related contexts, the
two searches return observably equal results and leave related contexts. -/
theorem search_bisim (c : Catalog) (hc : GoodCatalog c)
    (budget minAdd : Option ℚ) (avail : List String) (name : String) :
    ∀ (k : Nat) (st : MixState) (seq : List String) (ctx1 : SearchCtx)
      (ctx2 : MultiSearchCtx),
      goodE st.effects → st.baseSubstance = name →
      (seq = [] → st.totalCost = 0) → ctxRel name ctx1 ctx2 →
      optRel resultRel (search c budget minAdd avail k st seq ctx1).1
        (msearch c budget minAdd avail k [(name, st)] seq ctx2).1 ∧
      ctxRel name (search c budget minAdd avail k st seq ctx1).2
        (msearch c budget minAdd avail k [(name, st)] seq ctx2).2 := by
  intro k
  induction k with
  | zero =>
    intro st seq ctx1 ctx2 hgood hname h0 hrel
    simp only [search, msearch]
    refine cacheAndPrune_bisim c avail 0 st seq ctx1 ctx2 name _ _ hgood hname
      hrel ?_
    dsimp only
    by_cases hadd : qTruthy minAdd = true ∧
        st.totalAddiction < (minAdd.getD 0)
    · rw [if_pos hadd, if_pos ⟨hadd.1, by
        show ([(name, st)].any
          (fun p => decide (p.2.totalAddiction < (minAdd.getD 0)))) = true
        simp only [List.any_cons, List.any_nil, Bool.or_false,
          decide_eq_true_eq]
        exact hadd.2⟩]
      exact ⟨trivial, hrel⟩
    · rw [if_neg hadd, if_neg (fun hcontra => hadd ⟨hcontra.1, by
        have h2 := hcontra.2
        simp only [List.any_cons, List.any_nil, Bool.or_false,
          decide_eq_true_eq] at h2
        exact h2⟩)]
      have hres := @createResult_rel st seq name h0
      have hup := updateGlobalBest_rel hrel hres
      exact ⟨hres, mapSet_rel hup.1 hgood rfl hres, hup.2⟩
  | succ k ih =>
    intro st seq ctx1 ctx2 hgood hname h0 hrel
    have hloop : ∀ (lst : List String) (b1 : Option OptimizationResult)
        (b2 : Option MultiSubstanceOptimizationResult) (cx1 : SearchCtx)
        (cx2 : MultiSearchCtx),
        optRel resultRel b1 b2 → ctxRel name cx1 cx2 →
        optRel resultRel
          (searchLoop c budget (search c budget minAdd avail k)
            st seq lst b1 cx1).1
          (searchLoopM c budget (msearch c budget minAdd avail k)
            [(name, st)] seq lst b2 cx2).1 ∧
        ctxRel name
          (searchLoop c budget (search c budget minAdd avail k)
            st seq lst b1 cx1).2
          (searchLoopM c budget (msearch c budget minAdd avail k)
            [(name, st)] seq lst b2 cx2).2 := by
      intro lst
      induction lst with
      | nil =>
        intro b1 b2 cx1 cx2 hb hcx
        exact ⟨hb, hcx⟩
      | cons ing rest ihl =>
        intro b1 b2 cx1 cx2 hb hcx
        unfold searchLoop searchLoopM
        by_cases hbud : qTruthy budget = true ∧
            (budget.getD 0) < st.totalCost + getIngredientCost c ing
        · rw [if_pos hbud, if_pos ⟨hbud.1, by
            rw [getTotalCost_singleton]
            exact hbud.2⟩]
          exact ihl b1 b2 cx1 cx2 hb hcx
        · rw [if_neg hbud, if_neg (fun hcontra => hbud ⟨hcontra.1, by
            have h2 := hcontra.2
            rw [getTotalCost_singleton] at h2
            exact h2⟩)]
          rw [applyToAll_singleton]
          cases happ : applyIngredient c st ing with
          | none =>
            simp only [happ, Option.map_none]
            exact ihl b1 b2 cx1 cx2 hb hcx
          | some st' =>
            simp only [happ, Option.map_some]
            have hrec := ih st' (seq ++ [ing]) cx1 cx2
              (goodE_applyIngredient hc hgood happ)
              ((applyIngredient_baseSubstance happ).trans hname)
              (by intro hcontra; simp at hcontra) hcx
            exact ihl _ _ _ _ (pickBest_rel hb hrec.1) hrec.2
    simp only [search, msearch]
    refine cacheAndPrune_bisim c avail (k + 1) st seq ctx1 ctx2 name _ _ hgood
      hname hrel ?_
    dsimp only
    have hl := hloop avail none none ctx1 ctx2 trivial hrel
    cases hr1 : (searchLoop c budget (search c budget minAdd avail k)
        st seq avail none ctx1).1 with
    | none =>
      cases hr2 : (searchLoopM c budget (msearch c budget minAdd avail k)
          [(name, st)] seq avail none ctx2).1 with
      | none =>
        simp only [hr1, hr2]
        exact ⟨trivial, hl.2⟩
      | some best2 =>
        have := hl.1
        rw [hr1, hr2] at this
        exact absurd this (by simp [optRel])
    | some best1 =>
      cases hr2 : (searchLoopM c budget (msearch c budget minAdd avail k)
          [(name, st)] seq avail none ctx2).1 with
      | none =>
        have := hl.1
        rw [hr1, hr2] at this
        exact absurd this (by simp [optRel])
      | some best2 =>
        have hbb := hl.1
        rw [hr1, hr2] at hbb
        simp only [hr1, hr2]
        exact ⟨hbb, updateGlobalBest_rel
          ⟨mapSet_rel hl.2.1 hgood rfl hbb, hl.2.2⟩ hbb⟩

/-- C4.  Single-substance equivalence of the two optimizers: for every
catalog substance, maxSteps, available-ingredient option, budget limit and
minimum-addiction level, the multi-target optimizer invoked with the
one-element base-substance list succeeds and returns the same winning
ingredient sequence, the same totalCost and the same totalProfit as the
single-target optimizer invoked with that substance and the same options. -/
theorem single_substance_equivalence (c : Catalog) (hc : GoodCatalog c)
    (sub : String) (s : Substance) (hs : getSubstance c sub = some s)
    (n : Nat) (avail : Option (List String)) (budget minAdd : Option ℚ) :
    ∃ (r : OptimizationResult) (m : MultiSubstanceOptimizationResult),
      findOptimalMix c ⟨sub, n, avail, none, budget, minAdd⟩ = Except.ok r ∧
      multiFindOptimalMix c ⟨[sub], n, avail, budget, minAdd⟩
        = Except.ok m ∧
      m.sequence = r.sequence ∧ m.totalCost = r.totalCost ∧
      m.totalProfit = r.profit := by
  cases hinit : createInitialState c sub with
  | none =>
    exfalso
    unfold createInitialState at hinit
    rw [hs] at hinit
    simp at hinit
  | some st0 =>
    obtain ⟨s', hs', hbase, heff, hing, hcost⟩ :=
      createInitialState_eq_some hinit
    have hgood : goodE st0.effects := goodE_createInitialState hc hinit
    unfold findOptimalMix multiFindOptimalMix
    dsimp only
    rw [hinit]
    rw [if_neg (by simp : ¬ ([sub].length = 0))]
    have hfold : (([sub].foldlM
        (fun (m : MultiStates) n' =>
          match createInitialState c n' with
          | none => Except.error ("Substance not found: " ++ n')
          | some st => Except.ok (mapSet m n' st))
        ([] : MultiStates)) : Except String MultiStates)
        = Except.ok [(sub, st0)] := by
      show (match createInitialState c sub with
          | none => Except.error ("Substance not found: " ++ sub)
          | some st =>
            Except.ok (mapSet ([] : MultiStates) sub st)).bind
          (fun m => ([] : List String).foldlM
            (fun (m : MultiStates) n' =>
              match createInitialState c n' with
              | none => Except.error ("Substance not found: " ++ n')
              | some st => Except.ok (mapSet m n' st)) m)
        = Except.ok [(sub, st0)]
      rw [hinit]
      rfl
    rw [hfold]
    cases n with
    | zero =>
      have hr := @createResult_rel st0 [] sub (fun _ => hcost)
      exact ⟨_, _, rfl, rfl, hr.1, hr.2.1, hr.2.2⟩
    | succ k =>
      have hb := search_bisim c hc budget minAdd
        (avail.getD (getAllIngredients c)) sub (k + 1) st0 [] ⟨[], none⟩
        ⟨[], none⟩ hgood hbase (fun _ => hcost) ⟨trivial, trivial⟩
      have hres : resultRel
          ((search c budget minAdd (avail.getD (getAllIngredients c))
            (k + 1) st0 [] ⟨[], none⟩).1.getD (createResult st0 []))
          ((msearch c budget minAdd (avail.getD (getAllIngredients c))
            (k + 1) [(sub, st0)] [] ⟨[], none⟩).1.getD
            (createMultiResult [(sub, st0)] [])) := by
        cases h1 : (search c budget minAdd (avail.getD (getAllIngredients c))
            (k + 1) st0 [] ⟨[], none⟩).1 with
        | none =>
          cases h2 : (msearch c budget minAdd
              (avail.getD (getAllIngredients c)) (k + 1) [(sub, st0)] []
              ⟨[], none⟩).1 with
          | none =>
            simp only [Option.getD_none]
            exact createResult_rel sub (fun _ => hcost)
          | some m1 =>
            have := hb.1
            rw [h1, h2] at this
            exact absurd this (by simp [optRel])
        | some r1 =>
          cases h2 : (msearch c budget minAdd
              (avail.getD (getAllIngredients c)) (k + 1) [(sub, st0)] []
              ⟨[], none⟩).1 with
          | none =>
            have := hb.1
            rw [h1, h2] at this
            exact absurd this (by simp [optRel])
          | some m1 =>
            have hrel := hb.1
            rw [h1, h2] at hrel
            simp only [Option.getD_some]
            exact hrel
      exact ⟨_, _, rfl, rfl, hres.1, hres.2.1, hres.2.2⟩

/-- C4 witness: the equivalence instantiated on the catalog at OG Kush with
one step and only Cuke available. -/
theorem single_substance_equivalence_witness :
    GoodCatalog schedule1 ∧
    getSubstance schedule1 "OG Kush" = some ⟨"OG Kush", 35, ["Calming"], "weed"⟩ ∧
    (∃ (r : OptimizationResult) (m : MultiSubstanceOptimizationResult),
      findOptimalMix schedule1 ⟨"OG Kush", 1, some ["Cuke"], none, none, none⟩
        = Except.ok r ∧
      multiFindOptimalMix schedule1 ⟨["OG Kush"], 1, some ["Cuke"], none, none⟩
        = Except.ok m ∧
      m.sequence = r.sequence ∧ m.totalCost = r.totalCost ∧
      m.totalProfit = r.profit) :=
  ⟨by decide, by decide,
    single_substance_equivalence schedule1 (by decide) "OG Kush"
      ⟨"OG Kush", 35, ["Calming"], "weed"⟩ (by decide) 1 (some ["Cuke"])
      none none⟩

end S1
